import Mathlib

/-! # IllutronB wave-table synthesiser: embedding and checked properties

Shallow embedding of `IllutronB.cpp` / `IllutronB.h` (target: 8-bit AVR, where
`unsigned int` and `int` are 16 bits wide and `unsigned char` is 8 bits wide).

* machine integers are `Nat` / `Int` with explicit reductions modulo `2^16`
  or `2^8` where the C++ arithmetic wraps;
* program memory (the flash that `pgm_read_byte` reads) is a function from
  addresses to bytes and is passed explicitly;
* member functions become functions from the object state to the new state
  (and the returned value, when there is one).
-/

namespace IllutronB

/-! ## Program memory and integer conversions -/

/-- Read one byte of program memory at a 16-bit address (`pgm_read_byte`). -/
def pgm_read_byte (pgm : Nat → Nat) (addr : Nat) : Nat :=
  pgm (addr % 65536) % 256

/-- Conversion of an integer to `signed char` (two's complement, 8 bits). -/
def toSChar (x : Int) : Int :=
  (x + 128) % 256 - 128

/-! ## The voice: `CIllutronB::CVoice` -/

/-- Data members of `CIllutronB::CVoice` (see `IllutronB.h`). -/
structure CVoice where
  m_unWaveTableStart : Nat
  m_unWavePhaseAccumulator : Nat
  m_unWavePhaseIncrement : Nat
  m_unPitch : Nat
  m_unEnvelopeTableStart : Nat
  m_unEnvelopePhaseAccumulator : Nat
  m_unEnvelopePhaseIncrement : Nat
  m_sAmplitude : Nat
  m_nEnvelopePitchModulation : Int
deriving DecidableEq, Repr

/-- Every member holds a value of its C++ type: `unsigned int` members are
below `2^16`, the `unsigned char` amplitude is below `2^8`, the `int`
modulation depth is a 16-bit signed value. -/
def CVoice.wf (v : CVoice) : Prop :=
  v.m_unWaveTableStart < 65536 ∧
  v.m_unWavePhaseAccumulator < 65536 ∧
  v.m_unWavePhaseIncrement < 65536 ∧
  v.m_unPitch < 65536 ∧
  v.m_unEnvelopeTableStart < 65536 ∧
  v.m_unEnvelopePhaseAccumulator < 65536 ∧
  v.m_unEnvelopePhaseIncrement < 65536 ∧
  v.m_sAmplitude < 256 ∧
  -32768 ≤ v.m_nEnvelopePitchModulation ∧ v.m_nEnvelopePitchModulation ≤ 32767

instance (v : CVoice) : Decidable v.wf := by
  unfold CVoice.wf
  infer_instance

/-- The constructor `CIllutronB::CVoice::CVoice()` (`NULL` is address 0). -/
def CVoice.ctor : CVoice where
  m_unEnvelopeTableStart := 0
  m_unEnvelopePhaseAccumulator := 0x8000
  m_unEnvelopePhaseIncrement := 10
  m_sAmplitude := 255
  m_nEnvelopePitchModulation := 0
  m_unWaveTableStart := 0
  m_unWavePhaseAccumulator := 0
  m_unWavePhaseIncrement := 1000
  m_unPitch := 500

/-- The member function `CIllutronB::CVoice::getSample`: the returned
`signed char` sample and the voice state after the call.  The two `uint8_t`
flags are tested against zero, as in the source. -/
def CVoice.getSample (pgm : Nat → Nat) (v : CVoice)
    (bUpdateEnvelope bApplyEnvelopePitchModulation : Nat) : Int × CVoice :=
  -- calculate the amplitude based on the position within the envelope
  let v1 : CVoice :=
    if bUpdateEnvelope ≠ 0 then
      if v.m_unEnvelopePhaseAccumulator &&& 0x8000 = 0 then
        let acc := (v.m_unEnvelopePhaseAccumulator + v.m_unEnvelopePhaseIncrement) % 65536
        let amp := pgm_read_byte pgm (v.m_unEnvelopeTableStart + (acc >>> 7))
        if acc &&& 0x8000 ≠ 0 then
          { v with m_unEnvelopePhaseAccumulator := acc, m_sAmplitude := 0 }
        else
          { v with m_unEnvelopePhaseAccumulator := acc, m_sAmplitude := amp }
      else
        { v with m_sAmplitude := 0 }
    else v
  -- the body of `if(bApplyEnvelopePitchModulation)` is commented out in the source
  let v2 : CVoice := if bApplyEnvelopePitchModulation ≠ 0 then v1 else v1
  let v3 : CVoice :=
    { v2 with m_unWavePhaseAccumulator :=
        (v2.m_unWavePhaseAccumulator + v2.m_unWavePhaseIncrement) % 65536 }
  if v3.m_sAmplitude = 0 then
    (0, v3)
  else
    (toSChar
      ((toSChar (pgm_read_byte pgm
          (v3.m_unWaveTableStart + (v3.m_unWavePhaseAccumulator >>> 8)))
        * (v3.m_sAmplitude : Int)) >>> (8 : Nat)), v3)

/-- The member function `CIllutronB::CVoice::trigger`. -/
def CVoice.trigger (v : CVoice) : CVoice :=
  { v with m_unEnvelopePhaseAccumulator := 0 }

/-- The member function `CIllutronB::CVoice::triggerMidi`, reading the global
table `unsigned int PITCHS[128]`.  A note outside the table is an
out-of-bounds read and gives `none`. -/
def CVoice.triggerMidi (PITCHS : Fin 128 → Nat) (note : Nat) (v : CVoice) : Option CVoice :=
  if h : note < 128 then
    let v1 : CVoice := { v with m_unPitch := PITCHS ⟨note, h⟩ }
    let v2 : CVoice := { v1 with m_unEnvelopePhaseAccumulator := 0 }
    some { v2 with m_unWavePhaseIncrement := v2.m_unPitch }
  else none

/-- A sequence of `getSample` calls on one voice, one call per pair of flags,
with no other call in between: the samples returned, in order, and the voice
state after the last call. -/
def CVoice.getSamples (pgm : Nat → Nat) : CVoice → List (Nat × Nat) → List Int × CVoice
  | v, [] => ([], v)
  | v, fl :: rest =>
    let r := v.getSample pgm fl.1 fl.2
    let rs := CVoice.getSamples pgm r.2 rest
    (r.1 :: rs.1, rs.2)

/-! ## Floating point on the target

On the AVR target both `float` and `double` are IEEE 754 binary32.  The
model below covers what the embedded expressions need: non-negative values,
division, conversion from and to unsigned integers, each operation rounded to
nearest with ties to even (24-bit significand).  The exponent range is not
bounded; no expression of this program leaves the normal range on arguments
of its parameter types, apart from the division by zero, which is modelled. -/

/-- A non-negative binary32 value: zero, `m * 2^e` with a 24-bit significand
`2^23 ≤ m < 2^24`, infinity, or not-a-number. -/
inductive F32 where
  | zero : F32
  | fin (m : Nat) (e : Int) : F32
  | inf : F32
  | nan : F32
deriving DecidableEq, Repr

/-- Helper of `ilog2`, by recursion on fuel. -/
def log2Aux : Nat → Nat → Nat
  | 0, _ => 0
  | fuel + 1, n => if 2 ≤ n then log2Aux fuel (n / 2) + 1 else 0

/-- Position of the highest set bit of `n` (0 for `n ≤ 1`). -/
def ilog2 (n : Nat) : Nat := log2Aux n n

/-- The binary32 value nearest to `(n / d) * 2^e`, ties to even. -/
def F32.round (n d : Nat) (e : Int) : F32 :=
  if n = 0 then F32.zero
  else if d = 0 then F32.inf
  else
    let ln := ilog2 n
    let ld := ilog2 d
    -- scale to `2^23 < n1 / d1 < 2^25`, keeping `(n / d) * 2^e = (n1 / d1) * 2^e1`
    let n1 := if ln ≤ 24 + ld then n * 2 ^ (24 + ld - ln) else n
    let d1 := if ln ≤ 24 + ld then d else d * 2 ^ (ln - 24 - ld)
    let e1 : Int := e + (ln : Int) - 24 - (ld : Int)
    -- halve once more when the quotient has 25 bits
    let d2 := if 2 ^ 24 * d1 ≤ n1 then 2 * d1 else d1
    let e2 : Int := if 2 ^ 24 * d1 ≤ n1 then e1 + 1 else e1
    let q := n1 / d2
    let r := n1 % d2
    let q1 := if d2 < 2 * r ∨ (2 * r = d2 ∧ q % 2 = 1) then q + 1 else q
    if q1 = 2 ^ 24 then F32.fin (2 ^ 23) (e2 + 1) else F32.fin q1 e2

/-- Conversion of an unsigned integer to binary32. -/
def F32.ofNat (n : Nat) : F32 := F32.round n 1 0

/-- Division of non-negative binary32 values. -/
def F32.div : F32 → F32 → F32
  | F32.nan, _ => F32.nan
  | _, F32.nan => F32.nan
  | F32.zero, F32.zero => F32.nan
  | F32.inf, F32.inf => F32.nan
  | F32.zero, _ => F32.zero
  | F32.inf, _ => F32.inf
  | F32.fin _ _, F32.zero => F32.inf
  | F32.fin _ _, F32.inf => F32.zero
  | F32.fin m1 e1, F32.fin m2 e2 => F32.round m1 m2 (e1 - e2)

/-- Conversion of a binary32 value to the 16-bit `unsigned int`: the value
truncated toward zero; `none` when the truncated value is not representable
in 16 bits (undefined in C++). -/
def F32.toUInt16 : F32 → Option Nat
  | F32.zero => some 0
  | F32.fin m e =>
    let t := if 0 ≤ e then m * 2 ^ e.toNat else m / 2 ^ (-e).toNat
    if t < 65536 then some t else none
  | F32.inf => none
  | F32.nan => none

/-! ## The synthesiser: `CIllutronB` -/

/-- The macro `UPDATE_RATE`. -/
def UPDATE_RATE : Nat := 8000

/-- The macro `TIMER1_FREQUENCY`. -/
def TIMER1_FREQUENCY : Nat := 2000000

/-- The macro `ENVELOPE_DIVIDER`. -/
def ENVELOPE_DIVIDER : Nat := 4

/-- The macro `MODULATION_PITCH_DIVIDER`. -/
def MODULATION_PITCH_DIVIDER : Nat := 800

/-- Static data members of `CIllutronB`, together with the two timer
registers the interrupt handler writes (`OCR1A` 16 bits, `OCR0A` 8 bits). -/
structure CIllutronB where
  m_unBPMCounterStart : Nat
  m_unBPMCounter : Nat
  m_sBeatComplete : Nat
  m_sEnvelopeDivider : Nat
  m_unEnvelopePitchModulationDivider : Nat
  m_Voices : Fin 4 → CVoice
  OCR1A : Nat
  OCR0A : Nat

/-- The state after static initialisation and `initSynth()`: the definitions
of the static members at the end of `IllutronB.cpp`, four constructed voices,
`OCR0A = 127`, and the output compare register `OCR1A` at its reset value. -/
def CIllutronB.initial : CIllutronB where
  m_unBPMCounterStart := 0
  m_unBPMCounter := 0
  m_sBeatComplete := 0
  m_sEnvelopeDivider := ENVELOPE_DIVIDER
  m_unEnvelopePitchModulationDivider := MODULATION_PITCH_DIVIDER
  m_Voices := fun _ => CVoice.ctor
  OCR1A := 0
  OCR0A := 127

/-- The value of `(UPDATE_RATE/((float)sBPM/60.0))/4.0` converted to
`unsigned int`, as computed in `CIllutronB::setBPM`. -/
def bpmCounterStart (sBPM : Nat) : Option Nat :=
  F32.toUInt16
    (F32.div (F32.div (F32.ofNat UPDATE_RATE) (F32.div (F32.ofNat sBPM) (F32.ofNat 60)))
      (F32.ofNat 4))

/-- The function `CIllutronB::setBPM`; `none` when the conversion of the
computed value to `unsigned int` is undefined. -/
def CIllutronB.setBPM (sBPM : Nat) (s : CIllutronB) : Option CIllutronB :=
  match bpmCounterStart sBPM with
  | some c =>
    some { s with m_unBPMCounterStart := c, m_unBPMCounter := c, m_sBeatComplete := 0 }
  | none => none

/-- The function `CIllutronB::beatComplete`: the returned value and the state
after the call. -/
def CIllutronB.beatComplete (s : CIllutronB) : Nat × CIllutronB :=
  let oldBeatComplete := s.m_sBeatComplete
  if oldBeatComplete ≠ 0 then
    (oldBeatComplete, { s with m_sBeatComplete := 0 })
  else
    (oldBeatComplete, s)

/-- The value the handler assigns to the 8-bit register `OCR0A` from the four
voice samples: `127 + (((s0 + s1) + (s2 + s3)) >> 2)` computed in `int`,
reduced to 8 bits by the assignment. -/
def mixOutput (s0 s1 s2 s3 : Int) : Nat :=
  Int.toNat ((127 + (((s0 + s1) + (s2 + s3)) >>> (2 : Nat))) % 256)

/-- The interrupt handler `CIllutronB::OCR1A_ISR`, one tick. -/
def CIllutronB.OCR1A_ISR (pgm : Nat → Nat) (s : CIllutronB) : CIllutronB :=
  let ocr1a := (s.OCR1A + TIMER1_FREQUENCY / UPDATE_RATE) % 65536
  -- figure out which updates we need to perform
  let bUpdateEnvelope : Nat := if 0 = s.m_sEnvelopeDivider then 1 else 0
  let envelopeDivider : Nat :=
    if 0 = s.m_sEnvelopeDivider then ENVELOPE_DIVIDER else (s.m_sEnvelopeDivider + 255) % 256
  let bApplyEnvelopePitchModulation : Nat :=
    if 0 = s.m_unEnvelopePitchModulationDivider then 1 else 0
  let modulationDivider : Nat :=
    if 0 = bApplyEnvelopePitchModulation then MODULATION_PITCH_DIVIDER
    else (s.m_unEnvelopePitchModulationDivider + 65535) % 65536
  -- the mixer
  let r0 := (s.m_Voices 0).getSample pgm bUpdateEnvelope bApplyEnvelopePitchModulation
  let r1 := (s.m_Voices 1).getSample pgm bUpdateEnvelope bApplyEnvelopePitchModulation
  let r2 := (s.m_Voices 2).getSample pgm bUpdateEnvelope bApplyEnvelopePitchModulation
  let r3 := (s.m_Voices 3).getSample pgm bUpdateEnvelope bApplyEnvelopePitchModulation
  let ocr0a := mixOutput r0.1 r1.1 r2.1 r3.1
  let voices : Fin 4 → CVoice := ![r0.2, r1.2, r2.2, r3.2]
  -- the beat counter
  let counter := (s.m_unBPMCounter + 65535) % 65536
  if 0 = counter then
    { m_unBPMCounterStart := s.m_unBPMCounterStart
      m_unBPMCounter := s.m_unBPMCounterStart
      m_sBeatComplete := 1
      m_sEnvelopeDivider := envelopeDivider
      m_unEnvelopePitchModulationDivider := modulationDivider
      m_Voices := voices
      OCR1A := ocr1a
      OCR0A := ocr0a }
  else
    { m_unBPMCounterStart := s.m_unBPMCounterStart
      m_unBPMCounter := counter
      m_sBeatComplete := s.m_sBeatComplete
      m_sEnvelopeDivider := envelopeDivider
      m_unEnvelopePitchModulationDivider := modulationDivider
      m_Voices := voices
      OCR1A := ocr1a
      OCR0A := ocr0a }

/-- One tick followed by one `beatComplete()` call: the value returned by the
call and the state after it. -/
def CIllutronB.tickPoll (pgm : Nat → Nat) (s : CIllutronB) : Nat × CIllutronB :=
  (s.OCR1A_ISR pgm).beatComplete

/-- The caller that polls `beatComplete()` after every tick, run for `n`
ticks: the value returned by the last call (0 when `n = 0`) and the state. -/
def CIllutronB.tickPolls (pgm : Nat → Nat) : Nat → CIllutronB → Nat × CIllutronB
  | 0, s => (0, s)
  | n + 1, s => (CIllutronB.tickPolls pgm n s).2.tickPoll pgm

/-- The handler run for `n` ticks with no other call in between. -/
def CIllutronB.ticks (pgm : Nat → Nat) : Nat → CIllutronB → CIllutronB
  | 0, s => s
  | n + 1, s => (CIllutronB.ticks pgm n s).OCR1A_ISR pgm

/-! ## Further members: `setup`, `triggerPitch`, the pitch table, read traces -/

/-- Conversion of an integer to the 16-bit `int` (two's complement). -/
def toInt16 (x : Int) : Int :=
  (x + 32768) % 65536 - 32768

/-- Multiplication of non-negative binary32 values. -/
def F32.mul : F32 → F32 → F32
  | F32.nan, _ => F32.nan
  | _, F32.nan => F32.nan
  | F32.zero, F32.inf => F32.nan
  | F32.inf, F32.zero => F32.nan
  | F32.zero, _ => F32.zero
  | _, F32.zero => F32.zero
  | F32.inf, _ => F32.inf
  | _, F32.inf => F32.inf
  | F32.fin m1 e1, F32.fin m2 e2 => F32.round (m1 * m2) 1 (e1 + e2)

/-- The macro `SAMPLE_RATE` (the literal `16000.0`). -/
def SAMPLE_RATE : F32 := F32.ofNat 16000

/-- The macro `TIMER1_MAX`. -/
def TIMER1_MAX : Nat := 65535

/-- The member function `CIllutronB::CVoice::setup`.  The `float` arguments
`pitch` and `length` are non-negative binary32 values; `none` when one of the
two conversions to `unsigned int` is undefined. -/
def CVoice.setup (waveform : Nat) (pitch : F32) (envelope : Nat) (length : F32) (mod : Nat)
    (v : CVoice) : Option CVoice :=
  -- do the maths before we turn off interrupts
  let tempEnvelopePhaseIncrement :=
    F32.toUInt16
      (F32.div (F32.div (F32.ofNat 1) length)
        (F32.div SAMPLE_RATE (F32.mul (F32.round 65535 2 0) (F32.ofNat 10))))
  let pitch1 := F32.div pitch (F32.div SAMPLE_RATE (F32.ofNat TIMER1_MAX))
  match tempEnvelopePhaseIncrement, F32.toUInt16 pitch1 with
  | some inc, some p =>
    some { v with
      m_unWaveTableStart := waveform
      m_unEnvelopeTableStart := envelope
      m_unEnvelopePhaseIncrement := inc
      m_unPitch := p
      m_nEnvelopePitchModulation := toInt16 (mod : Int) }
  | _, _ => none

/-- The local `tempWavePhaseIncrement` of `triggerPitch`: the value of
`UPDATE_RATE/(sPitch*256.0)` converted to `unsigned int`. -/
def triggerPitchIncrement (sPitch : Nat) : Option Nat :=
  F32.toUInt16 (F32.div (F32.ofNat UPDATE_RATE) (F32.mul (F32.ofNat sPitch) (F32.ofNat 256)))

/-- The member function `CIllutronB::CVoice::triggerPitch`; `none` when the
conversion to `unsigned int` is undefined (`sPitch = 0`). -/
def CVoice.triggerPitch (sPitch : Nat) (v : CVoice) : Option CVoice :=
  match triggerPitchIncrement sPitch with
  | some tempWavePhaseIncrement =>
    some { v with
      m_unWavePhaseIncrement := tempWavePhaseIncrement
      m_unEnvelopePhaseAccumulator := 0 }
  | none => none

/-- The value `initSynth` stores in `PITCHS[i]`,
`(440. * exp(.057762265 * (i - 69.)))/(SAMPLE_RATE/65535.0)` converted to
`unsigned int`, as a function of the value `x` that the library function
`exp` returns for the note (`exp` is not part of the repository; for note 69
its argument is 0 and `x` is 1). -/
def initSynth_PITCHS (x : F32) : Option Nat :=
  F32.toUInt16 (F32.div (F32.mul (F32.ofNat 440) x) (F32.div SAMPLE_RATE (F32.ofNat 65535)))

/-- One `pgm_read_byte` call of `getSample`: which table, and the offset
added to the table start. -/
inductive Read where
  | envelope (index : Nat) : Read
  | wave (index : Nat) : Read
deriving DecidableEq, Repr

/-- The function `getSample` with its `pgm_read_byte` calls recorded: the
result of `getSample` and the reads made, in program order. -/
def CVoice.getSampleTraced (pgm : Nat → Nat) (v : CVoice)
    (bUpdateEnvelope bApplyEnvelopePitchModulation : Nat) : (Int × CVoice) × List Read :=
  let s1 : CVoice × List Read :=
    if bUpdateEnvelope ≠ 0 then
      if v.m_unEnvelopePhaseAccumulator &&& 0x8000 = 0 then
        let acc := (v.m_unEnvelopePhaseAccumulator + v.m_unEnvelopePhaseIncrement) % 65536
        let amp := pgm_read_byte pgm (v.m_unEnvelopeTableStart + (acc >>> 7))
        if acc &&& 0x8000 ≠ 0 then
          ({ v with m_unEnvelopePhaseAccumulator := acc, m_sAmplitude := 0 },
            [Read.envelope (acc >>> 7)])
        else
          ({ v with m_unEnvelopePhaseAccumulator := acc, m_sAmplitude := amp },
            [Read.envelope (acc >>> 7)])
      else
        ({ v with m_sAmplitude := 0 }, [])
    else (v, [])
  let s2 : CVoice × List Read := if bApplyEnvelopePitchModulation ≠ 0 then s1 else s1
  let v3 : CVoice :=
    { s2.1 with m_unWavePhaseAccumulator :=
        (s2.1.m_unWavePhaseAccumulator + s2.1.m_unWavePhaseIncrement) % 65536 }
  if v3.m_sAmplitude = 0 then
    ((0, v3), s2.2)
  else
    ((toSChar
      ((toSChar (pgm_read_byte pgm
          (v3.m_unWaveTableStart + (v3.m_unWavePhaseAccumulator >>> 8)))
        * (v3.m_sAmplitude : Int)) >>> (8 : Nat)), v3),
      s2.2 ++ [Read.wave (v3.m_unWavePhaseAccumulator >>> 8)])

/-- The local `bUpdateEnvelope` of `OCR1A_ISR`, as computed from the state at
the start of the tick. -/
def CIllutronB.bUpdateEnvelope (s : CIllutronB) : Nat :=
  if 0 = s.m_sEnvelopeDivider then 1 else 0

/-- The local `bApplyEnvelopePitchModulation` of `OCR1A_ISR`, as computed from
the state at the start of the tick. -/
def CIllutronB.bApplyEnvelopePitchModulation (s : CIllutronB) : Nat :=
  if 0 = s.m_unEnvelopePitchModulationDivider then 1 else 0

/-- The number of calls in a sequence of `getSample` calls that are made with
`bUpdateEnvelope` set. -/
def updateCount : List (Nat × Nat) → Nat
  | [] => 0
  | fl :: rest => if fl.1 ≠ 0 then updateCount rest + 1 else updateCount rest

/-! ## Auxiliary facts about the integer conversions -/

theorem land_two_pow_iff (x k : Nat) : x &&& 2 ^ k = 0 ↔ x / 2 ^ k % 2 = 0 := by
  constructor
  · intro h
    have h1 : (x &&& 2 ^ k).testBit k = false := by rw [h]; simp
    rw [Nat.testBit_and, Nat.testBit_two_pow] at h1
    simp only [decide_True, Bool.and_true] at h1
    rw [Nat.testBit_to_div_mod] at h1
    have h2 : ¬ (x / 2 ^ k % 2 = 1) := by simpa using h1
    omega
  · intro h
    apply Nat.eq_of_testBit_eq
    intro i
    rw [Nat.testBit_and, Nat.testBit_two_pow]
    by_cases hi : k = i
    · subst hi
      rw [Nat.testBit_to_div_mod]
      simp [h]
    · simp [hi]

theorem land_sentinel_iff (x : Nat) : x &&& 0x8000 = 0 ↔ x / 32768 % 2 = 0 := by
  have h := land_two_pow_iff x 15
  norm_num at h
  exact h

theorem land_sentinel_of_lt (x : Nat) (hx : x < 65536) : x &&& 0x8000 = 0 ↔ x < 32768 := by
  rw [land_sentinel_iff]
  omega

theorem toSChar_byte_bounds (b : Nat) : -128 ≤ toSChar (b : Int) ∧ toSChar (b : Int) ≤ 127 := by
  unfold toSChar
  omega

theorem pgm_read_byte_lt (pgm : Nat → Nat) (addr : Nat) : pgm_read_byte pgm addr < 256 := by
  unfold pgm_read_byte
  exact Nat.mod_lt _ (by norm_num)

theorem sample_arith (w a : Int) (hw1 : -128 ≤ w) (hw2 : w ≤ 127) (ha1 : 1 ≤ a) (ha2 : a ≤ 255) :
    toSChar ((w * a) >>> (8 : Nat)) = (w * a) / 256 ∧ -32768 ≤ w * a ∧ w * a ≤ 32767 ∧
      -128 ≤ (w * a) / 256 ∧ (w * a) / 256 ≤ 126 := by
  have h1 : -32640 ≤ w * a := by nlinarith
  have h2 : w * a ≤ 32385 := by nlinarith
  generalize w * a = p at h1 h2
  have h3 : p >>> (8 : Nat) = p / 256 := by
    rw [Int.shiftRight_eq_div_pow]
    norm_num
  rw [h3]
  unfold toSChar
  omega

/-! ## Structure of one `getSample` call -/

theorem getSample_waveAcc (pgm : Nat → Nat) (v : CVoice) (ue am : Nat) :
    (v.getSample pgm ue am).2.m_unWavePhaseAccumulator =
      (v.m_unWavePhaseAccumulator + v.m_unWavePhaseIncrement) % 65536 := by
  unfold CVoice.getSample
  simp only []
  split_ifs <;> rfl

theorem getSample_frame (pgm : Nat → Nat) (v : CVoice) (ue am : Nat) :
    (v.getSample pgm ue am).2.m_unWavePhaseIncrement = v.m_unWavePhaseIncrement ∧
    (v.getSample pgm ue am).2.m_unWaveTableStart = v.m_unWaveTableStart ∧
    (v.getSample pgm ue am).2.m_unEnvelopeTableStart = v.m_unEnvelopeTableStart ∧
    (v.getSample pgm ue am).2.m_unEnvelopePhaseIncrement = v.m_unEnvelopePhaseIncrement ∧
    (v.getSample pgm ue am).2.m_unPitch = v.m_unPitch ∧
    (v.getSample pgm ue am).2.m_nEnvelopePitchModulation = v.m_nEnvelopePitchModulation := by
  unfold CVoice.getSample
  simp only []
  split_ifs <;> exact ⟨rfl, rfl, rfl, rfl, rfl, rfl⟩

theorem getSample_fst (pgm : Nat → Nat) (v : CVoice) (ue am : Nat) :
    (v.getSample pgm ue am).1 =
      if (v.getSample pgm ue am).2.m_sAmplitude = 0 then 0
      else toSChar ((toSChar (pgm_read_byte pgm
              ((v.getSample pgm ue am).2.m_unWaveTableStart +
                ((v.getSample pgm ue am).2.m_unWavePhaseAccumulator >>> 8)))
            * ((v.getSample pgm ue am).2.m_sAmplitude : Int)) >>> (8 : Nat)) := by
  unfold CVoice.getSample
  simp only []
  split_ifs <;> simp_all

theorem getSample_amp_lt (pgm : Nat → Nat) (v : CVoice) (ue am : Nat)
    (h : v.m_sAmplitude < 256) : (v.getSample pgm ue am).2.m_sAmplitude < 256 := by
  unfold CVoice.getSample
  simp only []
  split_ifs <;> first | exact h | exact pgm_read_byte_lt _ _ | simp

theorem getSample_envAcc_of_sentinel (pgm : Nat → Nat) (v : CVoice) (ue am : Nat)
    (hs : v.m_unEnvelopePhaseAccumulator &&& 0x8000 ≠ 0) :
    (v.getSample pgm ue am).2.m_unEnvelopePhaseAccumulator = v.m_unEnvelopePhaseAccumulator ∧
    (ue ≠ 0 → (v.getSample pgm ue am).2.m_sAmplitude = 0) ∧
    (v.m_sAmplitude = 0 → (v.getSample pgm ue am).2.m_sAmplitude = 0) := by
  unfold CVoice.getSample
  simp only []
  split_ifs <;> simp_all

theorem getSamples_silent (pgm : Nat → Nat) (fl : List (Nat × Nat)) :
    ∀ v : CVoice, v.m_unEnvelopePhaseAccumulator &&& 0x8000 ≠ 0 → v.m_sAmplitude = 0 →
      (∀ s ∈ (v.getSamples pgm fl).1, s = 0) ∧ (v.getSamples pgm fl).2.m_sAmplitude = 0 := by
  induction fl with
  | nil =>
    intro v _ h0
    simp [CVoice.getSamples, h0]
  | cons f rest ih =>
    intro v hs h0
    obtain ⟨hacc, -, hamp⟩ := getSample_envAcc_of_sentinel pgm v f.1 f.2 hs
    have hs1 : (v.getSample pgm f.1 f.2).2.m_unEnvelopePhaseAccumulator &&& 0x8000 ≠ 0 := by
      rw [hacc]; exact hs
    have h1 := hamp h0
    obtain ⟨ihs, iha⟩ := ih _ hs1 h1
    have hfst : (v.getSample pgm f.1 f.2).1 = 0 := by
      rw [getSample_fst, if_pos h1]
    refine ⟨?_, ?_⟩
    · intro s hmem
      simp only [CVoice.getSamples, List.mem_cons] at hmem
      rcases hmem with h | h
      · rw [h, hfst]
      · exact ihs s h
    · simpa [CVoice.getSamples] using iha

theorem getSamples_envAcc_of_sentinel (pgm : Nat → Nat) (fl : List (Nat × Nat)) :
    ∀ v : CVoice, v.m_unEnvelopePhaseAccumulator &&& 0x8000 ≠ 0 →
      (v.getSamples pgm fl).2.m_unEnvelopePhaseAccumulator = v.m_unEnvelopePhaseAccumulator := by
  induction fl with
  | nil => intro v _; rfl
  | cons f rest ih =>
    intro v hs
    obtain ⟨hacc, -, -⟩ := getSample_envAcc_of_sentinel pgm v f.1 f.2 hs
    have hs1 : (v.getSample pgm f.1 f.2).2.m_unEnvelopePhaseAccumulator &&& 0x8000 ≠ 0 := by
      rw [hacc]; exact hs
    have h := ih _ hs1
    simp only [CVoice.getSamples]
    rw [h, hacc]

theorem getSample_envelope_step (pgm : Nat → Nat) (v : CVoice) (ue am : Nat) :
    (v.getSample pgm ue am).2.m_unEnvelopePhaseAccumulator =
      (if ue ≠ 0 ∧ v.m_unEnvelopePhaseAccumulator &&& 0x8000 = 0 then
        (v.m_unEnvelopePhaseAccumulator + v.m_unEnvelopePhaseIncrement) % 65536
      else v.m_unEnvelopePhaseAccumulator) ∧
    (v.getSample pgm ue am).2.m_sAmplitude =
      (if ue ≠ 0 then
        if v.m_unEnvelopePhaseAccumulator &&& 0x8000 = 0 then
          if ((v.m_unEnvelopePhaseAccumulator + v.m_unEnvelopePhaseIncrement) % 65536)
              &&& 0x8000 ≠ 0 then 0
          else pgm_read_byte pgm (v.m_unEnvelopeTableStart +
            (((v.m_unEnvelopePhaseAccumulator + v.m_unEnvelopePhaseIncrement) % 65536) >>> 7))
        else 0
      else v.m_sAmplitude) := by
  unfold CVoice.getSample
  simp only []
  split_ifs <;> simp_all

/-! ## The claims about `getSample` -/

/-- C1: for a well-formed voice and any flags, when the cached amplitude `a`
after the envelope step is non-zero, `getSample` returns `⌊w * a / 256⌋`, where
`w` is the signed wave-table byte read at index `accumulator >> 8` of the
advanced wave accumulator; the index is below 256, `a` is in `1..255`, the
product fits a 16-bit signed `int`, and the result lies in `-128..126`, so the
conversion to `signed char` does not change it. -/
theorem C1_getSample_scaled_wave (pgm : Nat → Nat) (v : CVoice) (ue am : Nat)
    (hv : v.wf) (ha : (v.getSample pgm ue am).2.m_sAmplitude ≠ 0) :
    let r := v.getSample pgm ue am
    let idx := r.2.m_unWavePhaseAccumulator >>> 8
    let w := toSChar (pgm_read_byte pgm (r.2.m_unWaveTableStart + idx))
    let a : Int := r.2.m_sAmplitude
    r.2.m_unWavePhaseAccumulator =
        (v.m_unWavePhaseAccumulator + v.m_unWavePhaseIncrement) % 65536 ∧
      idx < 256 ∧ -128 ≤ w ∧ w ≤ 127 ∧ 1 ≤ a ∧ a ≤ 255 ∧
      -32768 ≤ w * a ∧ w * a ≤ 32767 ∧
      r.1 = ⌊((w : ℚ) * (a : ℚ)) / 256⌋ ∧ r.1 = (w * a) / 256 ∧
      -128 ≤ r.1 ∧ r.1 ≤ 126 := by
  intro r idx w a
  have hacc : r.2.m_unWavePhaseAccumulator =
      (v.m_unWavePhaseAccumulator + v.m_unWavePhaseIncrement) % 65536 :=
    getSample_waveAcc pgm v ue am
  have hidx : idx < 256 := by
    show r.2.m_unWavePhaseAccumulator >>> 8 < 256
    rw [hacc, Nat.shiftRight_eq_div_pow]
    norm_num
    omega
  obtain ⟨hw1, hw2⟩ := toSChar_byte_bounds (pgm_read_byte pgm (r.2.m_unWaveTableStart + idx))
  have hlt : r.2.m_sAmplitude < 256 := getSample_amp_lt pgm v ue am hv.2.2.2.2.2.2.2.1
  have ha1 : (1 : Int) ≤ a := by
    show (1 : Int) ≤ (r.2.m_sAmplitude : Int)
    have : 1 ≤ r.2.m_sAmplitude := Nat.one_le_iff_ne_zero.mpr ha
    exact_mod_cast this
  have ha2 : a ≤ 255 := by
    show (r.2.m_sAmplitude : Int) ≤ 255
    have : r.2.m_sAmplitude ≤ 255 := by omega
    exact_mod_cast this
  obtain ⟨hs, hp1, hp2, hq1, hq2⟩ := sample_arith w a hw1 hw2 ha1 ha2
  have hr : r.1 = (w * a) / 256 := by
    show (v.getSample pgm ue am).1 = _
    rw [getSample_fst, if_neg ha]
    exact hs
  have hfloor : ⌊((w : ℚ) * (a : ℚ)) / 256⌋ = (w * a) / 256 := by
    have h := Rat.floor_intCast_div_natCast (w * a) 256
    push_cast at h
    exact h
  refine ⟨hacc, hidx, hw1, hw2, ha1, ha2, hp1, hp2, ?_, hr, ?_, ?_⟩
  · rw [hfloor]; exact hr
  · rw [hr]; exact hq1
  · rw [hr]; exact hq2

/-- C1 at a concrete input: the constructed voice (amplitude 255) over a
memory filled with the byte 200, i.e. the signed wave value -56. -/
theorem C1_getSample_scaled_wave_witness :
    CVoice.ctor.wf ∧ (CVoice.ctor.getSample (fun _ => 200) 0 0).2.m_sAmplitude ≠ 0 ∧
      (CVoice.ctor.getSample (fun _ => 200) 0 0).1 =
        (toSChar (pgm_read_byte (fun _ => 200)
            ((CVoice.ctor.getSample (fun _ => 200) 0 0).2.m_unWaveTableStart +
              (CVoice.ctor.getSample (fun _ => 200) 0 0).2.m_unWavePhaseAccumulator >>> 8)) *
          ((CVoice.ctor.getSample (fun _ => 200) 0 0).2.m_sAmplitude : Int)) / 256 :=
  ⟨by decide, by decide,
    (C1_getSample_scaled_wave (fun _ => 200) CVoice.ctor 0 0 (by decide) (by decide)).2.2.2.2.2.2.2.2.2.1⟩

/-- C2: after N `getSample` calls, with any flags at each call and any
amplitude, the wave phase accumulator is `(initial + N * increment) mod 65536`
(and N samples were produced). -/
theorem C2_wave_accumulator_after_N (pgm : Nat → Nat) (fl : List (Nat × Nat)) :
    ∀ v : CVoice, v.m_unWavePhaseAccumulator < 65536 →
      (v.getSamples pgm fl).2.m_unWavePhaseAccumulator =
          (v.m_unWavePhaseAccumulator + fl.length * v.m_unWavePhaseIncrement) % 65536 ∧
        (v.getSamples pgm fl).2.m_unWavePhaseIncrement = v.m_unWavePhaseIncrement ∧
        (v.getSamples pgm fl).1.length = fl.length := by
  induction fl with
  | nil =>
    intro v hv
    refine ⟨?_, rfl, rfl⟩
    simp only [CVoice.getSamples, List.length_nil, Nat.zero_mul, Nat.add_zero]
    exact (Nat.mod_eq_of_lt hv).symm
  | cons f rest ih =>
    intro v _
    have hacc := getSample_waveAcc pgm v f.1 f.2
    have hinc := (getSample_frame pgm v f.1 f.2).1
    have hlt : (v.getSample pgm f.1 f.2).2.m_unWavePhaseAccumulator < 65536 := by
      rw [hacc]; exact Nat.mod_lt _ (by norm_num)
    obtain ⟨ih1, ih2, ih3⟩ := ih _ hlt
    simp only [CVoice.getSamples, List.length_cons]
    refine ⟨?_, ?_, ?_⟩
    · rw [ih1, hacc, hinc]
      have hmul : (rest.length + 1) * v.m_unWavePhaseIncrement =
          rest.length * v.m_unWavePhaseIncrement + v.m_unWavePhaseIncrement := by ring
      rw [hmul]
      generalize rest.length * v.m_unWavePhaseIncrement = t
      omega
    · rw [ih2, hinc]
    · rw [ih3]

/-- C2 at a concrete input: three calls on the constructed voice (accumulator
0, increment 1000) leave the accumulator at 3000. -/
theorem C2_wave_accumulator_after_N_witness :
    CVoice.ctor.m_unWavePhaseAccumulator < 65536 ∧
      (CVoice.ctor.getSamples (fun _ => 0) [(0, 0), (1, 0), (0, 1)]).2.m_unWavePhaseAccumulator =
        (0 + 3 * 1000) % 65536 :=
  ⟨by decide,
    (C2_wave_accumulator_after_N (fun _ => 0) [(0, 0), (1, 0), (0, 1)] CVoice.ctor (by decide)).1⟩

/-- C3 (evaluation of the code, and the extent of the defect).  The
constructed voice has bit 15 of the envelope accumulator set (0x8000) and a
cached amplitude of 255: a `getSample` call with `bUpdateEnvelope` clear keeps
that amplitude and returns the scaled wave byte, -56 over the byte 200, not 0.
The constructor is the only source of such a state: `getSample` preserves
"bit 15 set implies amplitude 0", the three trigger functions clear bit 15,
and `setup` changes neither member.  For every voice `v` with bit 15 set: the
accumulator is unchanged by any sequence of `getSample` calls; a call with
`bUpdateEnvelope` set returns 0 and clears the amplitude; a call with it clear
keeps the amplitude and, when the amplitude is non-zero, returns the scaled
wave byte; and once the amplitude is 0 (at the start, or from the first call
with `bUpdateEnvelope` set onward) every call returns 0 and the amplitude
stays 0, for any flags. -/
theorem C3_sentinel_silence (pgm : Nat → Nat) (v : CVoice)
    (hs : v.m_unEnvelopePhaseAccumulator &&& 0x8000 ≠ 0) :
    (∀ fl : List (Nat × Nat),
        (v.getSamples pgm fl).2.m_unEnvelopePhaseAccumulator = v.m_unEnvelopePhaseAccumulator) ∧
    (∀ ue am : Nat, ue ≠ 0 →
        (v.getSample pgm ue am).1 = 0 ∧ (v.getSample pgm ue am).2.m_sAmplitude = 0) ∧
    (v.m_sAmplitude = 0 → ∀ fl : List (Nat × Nat),
        (∀ s ∈ (v.getSamples pgm fl).1, s = 0) ∧ (v.getSamples pgm fl).2.m_sAmplitude = 0) ∧
    (∀ (before : List (Nat × Nat)) (ue am : Nat) (fl : List (Nat × Nat)), ue ≠ 0 →
        (∀ s ∈ ((v.getSamples pgm before).2.getSamples pgm ((ue, am) :: fl)).1, s = 0) ∧
        ((v.getSamples pgm before).2.getSamples pgm ((ue, am) :: fl)).2.m_sAmplitude = 0) ∧
    (∀ am : Nat, (v.getSample pgm 0 am).2.m_sAmplitude = v.m_sAmplitude ∧
        (v.m_sAmplitude ≠ 0 → (v.getSample pgm 0 am).1 =
          toSChar ((toSChar (pgm_read_byte pgm (v.m_unWaveTableStart +
              (((v.m_unWavePhaseAccumulator + v.m_unWavePhaseIncrement) % 65536) >>> 8)))
            * (v.m_sAmplitude : Int)) >>> (8 : Nat)))) ∧
    (∀ (u : CVoice) (ue am : Nat),
        (u.m_unEnvelopePhaseAccumulator &&& 0x8000 ≠ 0 → u.m_sAmplitude = 0) →
        (u.getSample pgm ue am).2.m_unEnvelopePhaseAccumulator &&& 0x8000 ≠ 0 →
        (u.getSample pgm ue am).2.m_sAmplitude = 0) ∧
    (∀ u : CVoice, u.trigger.m_unEnvelopePhaseAccumulator &&& 0x8000 = 0) ∧
    (∀ (PITCHS : Fin 128 → Nat) (note : Nat) (u w : CVoice),
        u.triggerMidi PITCHS note = some w → w.m_unEnvelopePhaseAccumulator &&& 0x8000 = 0) ∧
    (∀ (sPitch : Nat) (u w : CVoice),
        u.triggerPitch sPitch = some w → w.m_unEnvelopePhaseAccumulator &&& 0x8000 = 0) ∧
    (∀ (waveform : Nat) (pitch : F32) (envelope : Nat) (length : F32) (mod : Nat) (u w : CVoice),
        u.setup waveform pitch envelope length mod = some w →
        w.m_unEnvelopePhaseAccumulator = u.m_unEnvelopePhaseAccumulator ∧
        w.m_sAmplitude = u.m_sAmplitude) ∧
    (CVoice.ctor.m_unEnvelopePhaseAccumulator &&& 0x8000 ≠ 0 ∧
      CVoice.ctor.m_sAmplitude = 255 ∧
      (CVoice.ctor.getSample (fun _ => 200) 0 0).1 = -56 ∧
      (CVoice.ctor.getSample (fun _ => 200) 0 0).2.m_sAmplitude = 255) := by
  have hupd : ∀ (u : CVoice), u.m_unEnvelopePhaseAccumulator &&& 0x8000 ≠ 0 →
      ∀ ue am : Nat, ue ≠ 0 →
        (u.getSample pgm ue am).1 = 0 ∧ (u.getSample pgm ue am).2.m_sAmplitude = 0 := by
    intro u hu ue am hue
    have h0 := (getSample_envAcc_of_sentinel pgm u ue am hu).2.1 hue
    exact ⟨by rw [getSample_fst, if_pos h0], h0⟩
  have hzero : (0 : Nat) &&& 0x8000 = 0 := by decide
  refine ⟨fun fl => getSamples_envAcc_of_sentinel pgm fl v hs, hupd v hs,
    fun h0 fl => getSamples_silent pgm fl v hs h0, ?_, ?_, ?_, ?_, ?_, ?_, ?_, by decide⟩
  · intro before ue am fl hue
    have hs1 : (v.getSamples pgm before).2.m_unEnvelopePhaseAccumulator &&& 0x8000 ≠ 0 := by
      rw [getSamples_envAcc_of_sentinel pgm before v hs]; exact hs
    obtain ⟨hz, ha⟩ := hupd _ hs1 ue am hue
    have hs2 : ((v.getSamples pgm before).2.getSample pgm ue am).2.m_unEnvelopePhaseAccumulator
        &&& 0x8000 ≠ 0 := by
      rw [(getSample_envAcc_of_sentinel pgm _ ue am hs1).1]; exact hs1
    obtain ⟨hrest, hamp⟩ := getSamples_silent pgm fl _ hs2 ha
    refine ⟨?_, ?_⟩
    · intro s hmem
      simp only [CVoice.getSamples, List.mem_cons] at hmem
      rcases hmem with h | h
      · rw [h]; exact hz
      · exact hrest s h
    · simpa [CVoice.getSamples] using hamp
  · intro am
    have hamp : (v.getSample pgm 0 am).2.m_sAmplitude = v.m_sAmplitude := by
      have h := (getSample_envelope_step pgm v 0 am).2
      simpa using h
    refine ⟨hamp, ?_⟩
    intro hne
    rw [getSample_fst, if_neg (by rw [hamp]; exact hne), hamp, getSample_waveAcc,
      (getSample_frame pgm v 0 am).2.1]
  · intro u ue am hinv hset
    obtain ⟨e1, e2⟩ := getSample_envelope_step pgm u ue am
    by_cases hue : ue ≠ 0
    · by_cases hclear : u.m_unEnvelopePhaseAccumulator &&& 0x8000 = 0
      · rw [if_pos ⟨hue, hclear⟩] at e1
        rw [if_pos hue, if_pos hclear] at e2
        rw [e1] at hset
        rw [e2, if_pos hset]
      · rw [if_pos hue, if_neg hclear] at e2
        exact e2
    · rw [if_neg (fun h => hue h.1)] at e1
      rw [if_neg hue] at e2
      rw [e1] at hset
      rw [e2]
      exact hinv hset
  · intro u
    exact hzero
  · intro PITCHS note u w hw
    unfold CVoice.triggerMidi at hw
    split_ifs at hw with hlt
    simp only [Option.some.injEq] at hw
    rw [← hw]
    exact hzero
  · intro sPitch u w hw
    unfold CVoice.triggerPitch at hw
    split at hw
    · simp only [Option.some.injEq] at hw
      rw [← hw]
      exact hzero
    · exact absurd hw (by simp)
  · intro waveform pitch envelope length mod u w hw
    unfold CVoice.setup at hw
    simp only [] at hw
    split at hw
    · simp only [Option.some.injEq] at hw
      rw [← hw]
      exact ⟨rfl, rfl⟩
    · exact absurd hw (by simp)

/-- C3 at a concrete input: the constructed voice, two calls with the envelope
update clear, then calls starting with one that has it set. -/
theorem C3_sentinel_silence_witness :
    CVoice.ctor.m_unEnvelopePhaseAccumulator &&& 0x8000 ≠ 0 ∧
      (∀ s ∈ ((CVoice.ctor.getSamples (fun _ => 200) [(0, 0), (0, 1)]).2.getSamples
          (fun _ => 200) ((1, 0) :: [(0, 0), (1, 1)])).1, s = 0) ∧
      (CVoice.ctor.getSample (fun _ => 200) 0 0).1 = -56 :=
  ⟨by decide,
    ((C3_sentinel_silence (fun _ => 200) CVoice.ctor (by decide)).2.2.2.1
      [(0, 0), (0, 1)] 1 0 [(0, 0), (1, 1)] (by decide)).1,
    (C3_sentinel_silence (fun _ => 200) CVoice.ctor (by decide)).2.2.2.2.2.2.2.2.2.2.2.2.1⟩

/-- C4 as stated fails: with envelope increment 128, after `trigger()` the
next `getSample` with `bUpdateEnvelope` set advances the accumulator to 128
before reading, so the amplitude is the table entry at index 1 (here 100), not
the first entry (here 200). -/
theorem C4_counterexample :
    ({ CVoice.ctor with m_unEnvelopePhaseIncrement := 128 } : CVoice).trigger.m_unEnvelopePhaseAccumulator = 0 ∧
      ((({ CVoice.ctor with m_unEnvelopePhaseIncrement := 128 } : CVoice).trigger.getSample
          (fun a => if a = 0 then 200 else 100) 1 0).2.m_sAmplitude = 100) ∧
      pgm_read_byte (fun a => if a = 0 then 200 else 100)
          (({ CVoice.ctor with m_unEnvelopePhaseIncrement := 128 } : CVoice).m_unEnvelopeTableStart + 0) = 200 := by
  decide

/-- C4, amended: after `trigger()` the envelope accumulator is 0, and the next
`getSample` call with `bUpdateEnvelope` set leaves the accumulator equal to the
envelope increment and the cached amplitude equal to the envelope-table entry
at index `increment >> 7` when the increment is below 32768 (the first entry,
index 0, when the increment is below 128), and equal to 0 when the increment
is 32768 or more. -/
theorem C4_trigger_then_update (pgm : Nat → Nat) (v : CVoice) (ue am : Nat)
    (hinc : v.m_unEnvelopePhaseIncrement < 65536) (hue : ue ≠ 0) :
    v.trigger.m_unEnvelopePhaseAccumulator = 0 ∧
    (v.trigger.getSample pgm ue am).2.m_unEnvelopePhaseAccumulator =
        v.m_unEnvelopePhaseIncrement ∧
    (v.m_unEnvelopePhaseIncrement < 32768 →
        (v.trigger.getSample pgm ue am).2.m_sAmplitude =
          pgm_read_byte pgm (v.m_unEnvelopeTableStart + (v.m_unEnvelopePhaseIncrement >>> 7))) ∧
    (v.m_unEnvelopePhaseIncrement < 128 →
        (v.trigger.getSample pgm ue am).2.m_sAmplitude =
          pgm_read_byte pgm (v.m_unEnvelopeTableStart + 0)) ∧
    (32768 ≤ v.m_unEnvelopePhaseIncrement →
        (v.trigger.getSample pgm ue am).2.m_sAmplitude = 0) := by
  have hmod : (0 + v.m_unEnvelopePhaseIncrement) % 65536 = v.m_unEnvelopePhaseIncrement := by
    rw [Nat.zero_add]; exact Nat.mod_eq_of_lt hinc
  have hbit := land_sentinel_of_lt v.m_unEnvelopePhaseIncrement hinc
  have h0 : (0 : Nat) &&& 0x8000 = 0 := by decide
  have hacc : (v.trigger.getSample pgm ue am).2.m_unEnvelopePhaseAccumulator =
      v.m_unEnvelopePhaseIncrement := by
    unfold CVoice.getSample CVoice.trigger
    simp only [hmod, h0, hue, ne_eq, not_false_eq_true, if_true]
    split_ifs <;> rfl
  have hlow : v.m_unEnvelopePhaseIncrement < 32768 →
      (v.trigger.getSample pgm ue am).2.m_sAmplitude =
        pgm_read_byte pgm (v.m_unEnvelopeTableStart + (v.m_unEnvelopePhaseIncrement >>> 7)) := by
    intro hlt
    have hz := hbit.mpr hlt
    unfold CVoice.getSample CVoice.trigger
    simp only [hmod, h0, hue, hz, ne_eq, not_false_eq_true, if_true, not_true_eq_false,
      if_false]
    split_ifs <;> rfl
  refine ⟨rfl, hacc, hlow, ?_, ?_⟩
  · intro hlt
    have hsh : v.m_unEnvelopePhaseIncrement >>> 7 = 0 := by
      rw [Nat.shiftRight_eq_div_pow]
      norm_num
      omega
    rw [hlow (by omega), hsh]
  · intro hge
    have hnz : v.m_unEnvelopePhaseIncrement &&& 0x8000 ≠ 0 := by
      intro hz
      have := hbit.mp hz
      omega
    unfold CVoice.getSample CVoice.trigger
    simp only [hmod, h0, hue, hnz, ne_eq, not_false_eq_true, if_true]
    split_ifs <;> rfl

/-- C4 (amended) at a concrete input: the constructed voice (increment 10). -/
theorem C4_trigger_then_update_witness :
    CVoice.ctor.m_unEnvelopePhaseIncrement < 65536 ∧ (1 : Nat) ≠ 0 ∧
      (CVoice.ctor.m_unEnvelopePhaseIncrement < 128 →
        (CVoice.ctor.trigger.getSample (fun a => if a = 0 then 200 else 100) 1 0).2.m_sAmplitude =
          pgm_read_byte (fun a => if a = 0 then 200 else 100)
            (CVoice.ctor.m_unEnvelopeTableStart + 0)) :=
  ⟨by decide, by decide,
    (C4_trigger_then_update (fun a => if a = 0 then 200 else 100) CVoice.ctor 1 0
      (by decide) (by decide)).2.2.2.1⟩

/-- C6 as stated fails: four samples of -128 (wave byte -128 at amplitude
255) give `127 + (-512 >> 2) = -1`, and the 8-bit register receives 255.  The
first tick of the initial state over a memory filled with the byte 0x80 is
such a tick. -/
theorem C6_counterexample :
    (mixOutput (-128) (-128) (-128) (-128) : Int) = 255 ∧
      (127 + (((-128 : Int) + (-128) + (-128) + (-128)) >>> (2 : Nat))) = -1 ∧
      (CIllutronB.initial.OCR1A_ISR (fun _ => 128)).OCR0A = 255 := by
  decide

/-- C6, amended: the handler writes `mixOutput` of the four voice samples to
`OCR0A`; for samples in the signed 8-bit range this value is
`(127 + ((s0 + s1 + s2 + s3) >> 2)) mod 256`, it equals
`127 + ((s0 + s1 + s2 + s3) >> 2)` exactly when the sum is at least -508, and
it equals `127 + S` when all four samples are `S ≥ -127`. -/
theorem C6_mixer_output (pgm : Nat → Nat) (s : CIllutronB) (s0 s1 s2 s3 : Int)
    (h0 : -128 ≤ s0 ∧ s0 ≤ 127) (h1 : -128 ≤ s1 ∧ s1 ≤ 127)
    (h2 : -128 ≤ s2 ∧ s2 ≤ 127) (h3 : -128 ≤ s3 ∧ s3 ≤ 127) :
    (s.OCR1A_ISR pgm).OCR0A =
        mixOutput
          ((s.m_Voices 0).getSample pgm (if 0 = s.m_sEnvelopeDivider then 1 else 0)
            (if 0 = s.m_unEnvelopePitchModulationDivider then 1 else 0)).1
          ((s.m_Voices 1).getSample pgm (if 0 = s.m_sEnvelopeDivider then 1 else 0)
            (if 0 = s.m_unEnvelopePitchModulationDivider then 1 else 0)).1
          ((s.m_Voices 2).getSample pgm (if 0 = s.m_sEnvelopeDivider then 1 else 0)
            (if 0 = s.m_unEnvelopePitchModulationDivider then 1 else 0)).1
          ((s.m_Voices 3).getSample pgm (if 0 = s.m_sEnvelopeDivider then 1 else 0)
            (if 0 = s.m_unEnvelopePitchModulationDivider then 1 else 0)).1 ∧
    (mixOutput s0 s1 s2 s3 : Int) = (127 + ((s0 + s1 + s2 + s3) >>> (2 : Nat))) % 256 ∧
    ((mixOutput s0 s1 s2 s3 : Int) = 127 + ((s0 + s1 + s2 + s3) >>> (2 : Nat)) ↔
        -508 ≤ s0 + s1 + s2 + s3) ∧
    (s0 = s1 → s1 = s2 → s2 = s3 → -127 ≤ s0 → (mixOutput s0 s1 s2 s3 : Int) = 127 + s0) := by
  have hsum : (s0 + s1) + (s2 + s3) = s0 + s1 + s2 + s3 := by ring
  have hsh : ∀ x : Int, x >>> (2 : Nat) = x / 4 := by
    intro x
    rw [Int.shiftRight_eq_div_pow]
    norm_num
  have hmix : (mixOutput s0 s1 s2 s3 : Int) = (127 + ((s0 + s1 + s2 + s3) >>> (2 : Nat))) % 256 := by
    unfold mixOutput
    rw [hsum]
    apply Int.toNat_of_nonneg
    apply Int.emod_nonneg
    norm_num
  refine ⟨?_, hmix, ?_, ?_⟩
  · unfold CIllutronB.OCR1A_ISR
    simp only []
    split_ifs <;> rfl
  · rw [hmix, hsh]
    omega
  · intro e1 e2 e3 hge
    rw [hmix, hsh]
    omega

/-- C6 (amended) at a concrete input: the samples 100, -50, 7 and -128. -/
theorem C6_mixer_output_witness :
    ((-128 : Int) ≤ 100 ∧ (100 : Int) ≤ 127) ∧
      (mixOutput 100 (-50) 7 (-128) : Int) =
        (127 + (((100 : Int) + (-50) + 7 + (-128)) >>> (2 : Nat))) % 256 :=
  ⟨by decide,
    (C6_mixer_output (fun _ => 0) CIllutronB.initial 100 (-50) 7 (-128)
      (by decide) (by decide) (by decide) (by decide)).2.1⟩

/-! ## The beat clock -/

theorem succ_mod_cases (n C : Nat) (hC : 0 < C) :
    (n % C + 1 = C ∧ (n + 1) % C = 0) ∨ (n % C + 1 < C ∧ (n + 1) % C = n % C + 1) := by
  have hlt := Nat.mod_lt n hC
  have hn : (n + 1) % C = (n % C + 1) % C := by
    conv_lhs => rw [← Nat.div_add_mod n C]
    rw [Nat.add_assoc, Nat.mul_add_mod]
  by_cases h : n % C + 1 = C
  · left
    refine ⟨h, ?_⟩
    rw [hn, h, Nat.mod_self]
  · right
    have h2 : n % C + 1 < C := by omega
    exact ⟨h2, by rw [hn, Nat.mod_eq_of_lt h2]⟩

theorem OCR1A_ISR_beat (pgm : Nat → Nat) (t : CIllutronB) (C : Nat)
    (hC : C ≤ 65535) (hstart : t.m_unBPMCounterStart = C)
    (h1 : 1 ≤ t.m_unBPMCounter) (h2 : t.m_unBPMCounter ≤ C) :
    (t.OCR1A_ISR pgm).m_unBPMCounterStart = C ∧
    (t.OCR1A_ISR pgm).m_unBPMCounter = (if t.m_unBPMCounter = 1 then C else t.m_unBPMCounter - 1) ∧
    (t.OCR1A_ISR pgm).m_sBeatComplete = (if t.m_unBPMCounter = 1 then 1 else t.m_sBeatComplete) := by
  have hdec : (t.m_unBPMCounter + 65535) % 65536 = t.m_unBPMCounter - 1 := by omega
  unfold CIllutronB.OCR1A_ISR
  simp only [hdec]
  by_cases hc : t.m_unBPMCounter = 1
  · have hz : 0 = t.m_unBPMCounter - 1 := by omega
    rw [if_pos hz]
    simp [hc, hstart]
  · have hz : ¬ (0 = t.m_unBPMCounter - 1) := by omega
    rw [if_neg hz]
    simp [hc, hstart]

theorem beatComplete_spec (s : CIllutronB) :
    s.beatComplete.1 = s.m_sBeatComplete ∧
    s.beatComplete.2.m_sBeatComplete = 0 ∧
    s.beatComplete.2.m_unBPMCounter = s.m_unBPMCounter ∧
    s.beatComplete.2.m_unBPMCounterStart = s.m_unBPMCounterStart ∧
    s.beatComplete.2.m_sEnvelopeDivider = s.m_sEnvelopeDivider ∧
    s.beatComplete.2.m_unEnvelopePitchModulationDivider = s.m_unEnvelopePitchModulationDivider ∧
    s.beatComplete.2.m_Voices = s.m_Voices ∧
    s.beatComplete.2.OCR1A = s.OCR1A ∧
    s.beatComplete.2.OCR0A = s.OCR0A := by
  unfold CIllutronB.beatComplete
  by_cases h : s.m_sBeatComplete = 0
  · simp [h]
  · simp [h]

theorem tickPolls_invariant (pgm : Nat → Nat) (s : CIllutronB) (C : Nat)
    (hC1 : 1 ≤ C) (hC2 : C ≤ 65535)
    (hstart : s.m_unBPMCounterStart = C) (hcnt : s.m_unBPMCounter = C)
    (hlatch : s.m_sBeatComplete = 0) (n : Nat) :
    (CIllutronB.tickPolls pgm n s).2.m_unBPMCounterStart = C ∧
    (CIllutronB.tickPolls pgm n s).2.m_unBPMCounter = C - n % C ∧
    (CIllutronB.tickPolls pgm n s).2.m_sBeatComplete = 0 ∧
    (1 ≤ n → ((CIllutronB.tickPolls pgm n s).1 ≠ 0 ↔ n % C = 0)) := by
  induction n with
  | zero =>
    refine ⟨hstart, ?_, hlatch, ?_⟩
    · simp [CIllutronB.tickPolls, hcnt]
    · intro h; omega
  | succ k ih =>
    obtain ⟨ihs, ihc, ihl, -⟩ := ih
    have hlt := Nat.mod_lt k hC1
    obtain ⟨b1, b2, b3⟩ := OCR1A_ISR_beat pgm (CIllutronB.tickPolls pgm k s).2 C hC2 ihs
      (by omega) (by omega)
    obtain ⟨p1, p2, p3, p4, -⟩ := beatComplete_spec ((CIllutronB.tickPolls pgm k s).2.OCR1A_ISR pgm)
    simp only [CIllutronB.tickPolls, CIllutronB.tickPoll]
    rw [p1, p2, p3, p4, b1, b2, b3, ihl, ihc]
    refine ⟨rfl, ?_, rfl, ?_⟩
    · rcases succ_mod_cases k C hC1 with ⟨ha, hb⟩ | ⟨ha, hb⟩
      · rw [hb, if_pos (by omega)]; omega
      · rw [hb, if_neg (by omega)]; omega
    · intro _
      rcases succ_mod_cases k C hC1 with ⟨ha, hb⟩ | ⟨ha, hb⟩
      · rw [hb, if_pos (by omega)]; simp
      · rw [hb, if_neg (by omega)]; simp

theorem ticks_invariant (pgm : Nat → Nat) (s : CIllutronB) (C : Nat)
    (hC1 : 1 ≤ C) (hC2 : C ≤ 65535)
    (hstart : s.m_unBPMCounterStart = C) (hcnt : s.m_unBPMCounter = C)
    (hlatch : s.m_sBeatComplete = 0) (n : Nat) :
    (CIllutronB.ticks pgm n s).m_unBPMCounterStart = C ∧
    (CIllutronB.ticks pgm n s).m_unBPMCounter = C - n % C ∧
    ((CIllutronB.ticks pgm n s).m_sBeatComplete ≠ 0 ↔ C ≤ n) := by
  induction n with
  | zero =>
    refine ⟨hstart, ?_, ?_⟩
    · simp [CIllutronB.ticks, hcnt]
    · simp only [CIllutronB.ticks, hlatch]
      constructor
      · intro h; exact absurd rfl h
      · intro h; omega
  | succ k ih =>
    obtain ⟨ihs, ihc, ihl⟩ := ih
    have hlt := Nat.mod_lt k hC1
    have hle := Nat.mod_le k C
    obtain ⟨b1, b2, b3⟩ := OCR1A_ISR_beat pgm (CIllutronB.ticks pgm k s) C hC2 ihs
      (by omega) (by omega)
    simp only [CIllutronB.ticks]
    rw [b1, b2, b3, ihc]
    refine ⟨rfl, ?_, ?_⟩
    · rcases succ_mod_cases k C hC1 with ⟨ha, hb⟩ | ⟨ha, hb⟩
      · rw [hb, if_pos (by omega)]; omega
      · rw [hb, if_neg (by omega)]; omega
    · rcases succ_mod_cases k C hC1 with ⟨ha, hb⟩ | ⟨ha, hb⟩
      · rw [if_pos (by omega)]
        constructor
        · intro _; omega
        · intro _; exact one_ne_zero
      · rw [if_neg (by omega), ihl]
        constructor
        · intro h; omega
        · intro h
          by_contra hk
          have hk2 : k < C := by omega
          have := Nat.mod_eq_of_lt hk2
          omega

/-- C7: from a state in which `setBPM` has stored a countdown start `C` with
`1 ≤ C ≤ 65535` (countdown equal to `C`, latch clear), a caller polling
`beatComplete()` after every tick gets a non-zero value at the n-th tick
exactly when `n` is a positive multiple of `C`; the countdown is within `1..C`
after every tick, polled or not (it is `C - n mod C` after `n` ticks), and the
n-th tick is the one that reloads it and sets the latch exactly when `C`
divides `n`; `setBPM(60)` stores `C = 2000`, so the beat is reported every
2000 ticks. -/
theorem C7_beat_every_C_ticks (pgm : Nat → Nat) (s : CIllutronB) (C n : Nat)
    (hC1 : 1 ≤ C) (hC2 : C ≤ 65535)
    (hstart : s.m_unBPMCounterStart = C) (hcnt : s.m_unBPMCounter = C)
    (hlatch : s.m_sBeatComplete = 0) (hn : 1 ≤ n) :
    ((CIllutronB.tickPolls pgm n s).1 ≠ 0 ↔ C ∣ n) ∧
    1 ≤ (CIllutronB.tickPolls pgm n s).2.m_unBPMCounter ∧
    (CIllutronB.tickPolls pgm n s).2.m_unBPMCounter ≤ C ∧
    (CIllutronB.tickPolls pgm n s).2.m_unBPMCounterStart = C ∧
    (CIllutronB.ticks pgm n s).m_unBPMCounter = C - n % C ∧
    ((CIllutronB.ticks pgm (n - 1) s).m_unBPMCounter = 1 ↔ C ∣ n) ∧
    (∃ s60 : CIllutronB, s.setBPM 60 = some s60 ∧ s60.m_unBPMCounterStart = 2000 ∧
        ((CIllutronB.tickPolls pgm n s60).1 ≠ 0 ↔ 2000 ∣ n)) := by
  obtain ⟨i1, i2, -, i4⟩ := tickPolls_invariant pgm s C hC1 hC2 hstart hcnt hlatch n
  have hlt := Nat.mod_lt n hC1
  have hdvd : C ∣ n ↔ n % C = 0 := Nat.dvd_iff_mod_eq_zero ..
  refine ⟨?_, by omega, by omega, i1,
    (ticks_invariant pgm s C hC1 hC2 hstart hcnt hlatch n).2.1, ?_, ?_⟩
  · rw [i4 hn]
    exact hdvd.symm
  · rw [(ticks_invariant pgm s C hC1 hC2 hstart hcnt hlatch (n - 1)).2.1, hdvd]
    have hlt1 := Nat.mod_lt (n - 1) hC1
    have hn1 : n - 1 + 1 = n := by omega
    rcases succ_mod_cases (n - 1) C hC1 with ⟨ha, hb⟩ | ⟨ha, hb⟩
    · rw [hn1] at hb
      constructor
      · intro _; exact hb
      · intro _; omega
    · rw [hn1] at hb
      constructor
      · intro h; omega
      · intro h; omega
  · have h60 : bpmCounterStart 60 = some 2000 := by decide
    refine ⟨{ s with m_unBPMCounterStart := 2000, m_unBPMCounter := 2000, m_sBeatComplete := 0 },
      ?_, rfl, ?_⟩
    · simp [CIllutronB.setBPM, h60]
    · have h := (tickPolls_invariant pgm
        { s with m_unBPMCounterStart := 2000, m_unBPMCounter := 2000, m_sBeatComplete := 0 }
        2000 (by norm_num) (by norm_num) rfl rfl rfl n).2.2.2 hn
      rw [h]
      exact (Nat.dvd_iff_mod_eq_zero ..).symm

/-- C7 at a concrete input: countdown start 3 on the initial engine, sixth
tick. -/
theorem C7_beat_every_C_ticks_witness :
    ((CIllutronB.tickPolls (fun _ => 0) 6
        { CIllutronB.initial with m_unBPMCounterStart := 3, m_unBPMCounter := 3 }).1 ≠ 0 ↔
      3 ∣ 6) :=
  (C7_beat_every_C_ticks (fun _ => 0)
    { CIllutronB.initial with m_unBPMCounterStart := 3, m_unBPMCounter := 3 } 3 6
    (by decide) (by decide) rfl rfl rfl (by decide)).1

/-- C8: `beatComplete()` returns the current latch value and leaves the latch
cleared, so a second call with no tick in between returns 0 (false); the
countdown, the countdown start and every other member are unchanged. -/
theorem C8_beatComplete_consume_once (s : CIllutronB) :
    s.beatComplete.1 = s.m_sBeatComplete ∧
    s.beatComplete.2.m_sBeatComplete = 0 ∧
    s.beatComplete.2.beatComplete.1 = 0 ∧
    s.beatComplete.2.beatComplete.2 = s.beatComplete.2 ∧
    s.beatComplete.2.m_unBPMCounter = s.m_unBPMCounter ∧
    s.beatComplete.2.m_unBPMCounterStart = s.m_unBPMCounterStart ∧
    s.beatComplete.2.m_sEnvelopeDivider = s.m_sEnvelopeDivider ∧
    s.beatComplete.2.m_unEnvelopePitchModulationDivider = s.m_unEnvelopePitchModulationDivider ∧
    s.beatComplete.2.m_Voices = s.m_Voices ∧
    s.beatComplete.2.OCR1A = s.OCR1A ∧
    s.beatComplete.2.OCR0A = s.OCR0A := by
  obtain ⟨p1, p2, p3, p4, p5, p6, p7, p8, p9⟩ := beatComplete_spec s
  obtain ⟨q1, -⟩ := beatComplete_spec s.beatComplete.2
  have hclear : ∀ t : CIllutronB, t.m_sBeatComplete = 0 → t.beatComplete.2 = t := by
    intro t ht
    unfold CIllutronB.beatComplete
    simp [ht]
  exact ⟨p1, p2, by rw [q1, p2], hclear _ p2, p3, p4, p5, p6, p7, p8, p9⟩

set_option maxRecDepth 1000000 in
theorem bpmCounterStart_table :
    ∀ bpm : Nat, bpm < 256 → 2 ≤ bpm →
      bpmCounterStart bpm =
        some (if bpm = 2 ∨ bpm = 4 ∨ bpm = 8 ∨ bpm = 16 ∨ bpm = 32 ∨ bpm = 64
          then 120000 / bpm - 1 else 120000 / bpm) := by
  decide

/-- C9 as stated fails.  For `bpm = 1` the computed value is 119999.9921875,
which truncates to 119999 and is not representable in the 16-bit counter (nor
is 120000).  For `bpm = 2` the binary32 quotient `2/60.0` is rounded up, so
`8000/(2/60.0)` is 239999.984375 and the stored value is 59999, not
`120000 / 2 = 60000`. -/
theorem C9_counterexample :
    F32.div (F32.div (F32.ofNat UPDATE_RATE) (F32.div (F32.ofNat 1) (F32.ofNat 60)))
        (F32.ofNat 4) = F32.fin 15359999 (-7) ∧
      15359999 / 2 ^ 7 = 119999 ∧ ¬ (119999 < 65536) ∧
      bpmCounterStart 1 = none ∧
      bpmCounterStart 2 = some 59999 ∧ 120000 / 2 = 60000 := by
  decide

/-- C9, amended: for every `bpm` in `2..255`, `setBPM(bpm)` stores the
binary32 value of `(8000/((float)bpm/60.0))/4.0` truncated to an integer,
which is `⌊120000 / bpm⌋` except for `bpm` in 2, 4, 8, 16, 32, 64, where it is
`120000 / bpm - 1`; the value is below 65536 and at least 1, the countdown is
set to the same value, the latch is cleared, and nothing else changes. -/
theorem C9_setBPM_countdown_start (bpm : Nat) (s : CIllutronB)
    (h2 : 2 ≤ bpm) (h255 : bpm ≤ 255) :
    ∃ c : Nat,
      c = (if bpm = 2 ∨ bpm = 4 ∨ bpm = 8 ∨ bpm = 16 ∨ bpm = 32 ∨ bpm = 64
          then 120000 / bpm - 1 else 120000 / bpm) ∧
      1 ≤ c ∧ c < 65536 ∧ (bpm = 60 → c = 2000) ∧
      bpmCounterStart bpm = some c ∧
      s.setBPM bpm =
        some { s with m_unBPMCounterStart := c, m_unBPMCounter := c, m_sBeatComplete := 0 } := by
  have ht := bpmCounterStart_table bpm (by omega) h2
  refine ⟨_, rfl, ?_, ?_, ?_, ht, ?_⟩
  · have hd : 470 ≤ 120000 / bpm := by
      rw [Nat.le_div_iff_mul_le (by omega)]
      nlinarith
    split_ifs <;> omega
  · have hd : 120000 / bpm ≤ 60000 := by
      rw [Nat.div_le_iff_le_mul_add_pred (by omega)]
      omega
    split_ifs <;> omega
  · intro h60
    subst h60
    decide
  · simp [CIllutronB.setBPM, ht]

/-- C9 (amended) at a concrete input: 120 beats per minute. -/
theorem C9_setBPM_countdown_start_witness :
    2 ≤ 120 ∧ 120 ≤ 255 ∧ bpmCounterStart 120 = some 1000 := by
  obtain ⟨c, hc, -, -, -, hs, -⟩ :=
    C9_setBPM_countdown_start 120 CIllutronB.initial (by decide) (by decide)
  refine ⟨by decide, by decide, ?_⟩
  rw [hs, hc]
  decide

/-! ## Triggering a note -/

/-- C10: for every note in `0..127`, `triggerMidi(note)` sets the wave
increment and the baseline pitch to the pitch-table entry of the note and the
envelope accumulator to 0; the wave accumulator, the cached amplitude, the
envelope increment, the two table references and the modulation depth are
unchanged. -/
theorem C10_triggerMidi_effect (PITCHS : Fin 128 → Nat) (note : Nat) (v : CVoice)
    (hnote : note ≤ 127) :
    ∃ (hlt : note < 128) (w : CVoice), v.triggerMidi PITCHS note = some w ∧
      w.m_unWavePhaseIncrement = PITCHS ⟨note, hlt⟩ ∧
      w.m_unPitch = PITCHS ⟨note, hlt⟩ ∧
      w.m_unEnvelopePhaseAccumulator = 0 ∧
      w.m_unWavePhaseAccumulator = v.m_unWavePhaseAccumulator ∧
      w.m_sAmplitude = v.m_sAmplitude ∧
      w.m_unEnvelopePhaseIncrement = v.m_unEnvelopePhaseIncrement ∧
      w.m_unWaveTableStart = v.m_unWaveTableStart ∧
      w.m_unEnvelopeTableStart = v.m_unEnvelopeTableStart ∧
      w.m_nEnvelopePitchModulation = v.m_nEnvelopePitchModulation := by
  have hlt : note < 128 := by omega
  refine ⟨hlt,
    { v with m_unPitch := PITCHS ⟨note, hlt⟩, m_unEnvelopePhaseAccumulator := 0,
             m_unWavePhaseIncrement := PITCHS ⟨note, hlt⟩ },
    ?_, rfl, rfl, rfl, rfl, rfl, rfl, rfl, rfl, rfl⟩
  unfold CVoice.triggerMidi
  rw [dif_pos hlt]

/-- C10 at a concrete input: note 69 on the constructed voice, with a table
that holds 1802 at every note. -/
theorem C10_triggerMidi_effect_witness :
    69 ≤ 127 ∧
      ∃ w : CVoice, CVoice.ctor.triggerMidi (fun _ => 1802) 69 = some w ∧
        w.m_unWavePhaseIncrement = 1802 ∧ w.m_unPitch = 1802 ∧
        w.m_unEnvelopePhaseAccumulator = 0 := by
  obtain ⟨_, w, hw, h1, h2, h3, -⟩ :=
    C10_triggerMidi_effect (fun _ => 1802) 69 CVoice.ctor (by decide)
  exact ⟨by decide, w, hw, h1, h2, h3⟩

/-! ## The pitch table and the constructed voice -/

/-- C11 (evaluation of the code at note 69): `initSynth` stores
`trunc(440 * 65535 / 16000) = 1802` for note 69 (where `exp` returns 1) and
`triggerMidi(69)` installs it as the wave increment.  Added once per tick at
the handler's rate of 8000 ticks per second, 1802 takes the 16-bit accumulator
through about 219.97 cycles per second: the distance to 440 is not below 1.
The table is scaled for `SAMPLE_RATE` (16000), at which rate the same
increment would be within 1 of 440. -/
theorem C11_note69_increment_and_rate :
    initSynth_PITCHS (F32.ofNat 1) = some 1802 ∧
    440 * 65535 / 16000 = 1802 ∧
    (CVoice.ctor.triggerMidi (fun _ => 1802) 69).map (fun w => w.m_unWavePhaseIncrement) =
      some 1802 ∧
    TIMER1_FREQUENCY / (TIMER1_FREQUENCY / UPDATE_RATE) = 8000 ∧
    ¬ (|(1802 : ℚ) * 8000 / 65536 - 440| < 1) ∧
    |(1802 : ℚ) * 16000 / 65536 - 440| < 1 := by
  refine ⟨by decide, by decide, by decide, by decide, ?_, ?_⟩
  · rw [abs_lt]
    norm_num
  · rw [abs_lt]
    norm_num

/-- C12 (evaluation of the code on the constructed voice): the constructor
leaves the cached amplitude at 255, so a `getSample` call with
`bUpdateEnvelope` clear returns the scaled wave byte (-56 for the byte 200),
not 0; the first tick of the initial engine state is such a call (the
envelope divider starts at 4) and writes `127 + (-56) = 71` to `OCR0A`.  A
call with `bUpdateEnvelope` set returns 0. -/
theorem C12_constructed_voice_not_silent :
    CVoice.ctor.m_sAmplitude = 255 ∧
    (CVoice.ctor.getSamples (fun _ => 200) [(0, 0)]).1 = [-56] ∧
    CIllutronB.initial.bUpdateEnvelope = 0 ∧
    (CIllutronB.initial.OCR1A_ISR (fun _ => 200)).OCR0A = 71 ∧
    (CVoice.ctor.getSamples (fun _ => 200) [(1, 0), (0, 0)]).1 = [0, 0] := by
  decide

/-- C13 (evaluation of the code): `setup(0x100, 440.0, 0x200, 1.0, 512)` on
the constructed voice stores the two table references, the modulation depth,
the envelope increment `trunc((1/1.0)/(16000/327675)) = 20` and the baseline
pitch `trunc(440/(16000/65535)) = 1802`, but leaves the wave phase increment
at its old value 1000; for all arguments `setup` leaves the wave phase
increment, the two accumulators and the amplitude unchanged. -/
theorem C13_setup_wave_increment_unchanged :
    CVoice.ctor.setup 256 (F32.ofNat 440) 512 (F32.ofNat 1) 512 =
      some { CVoice.ctor with
        m_unWaveTableStart := 256
        m_unEnvelopeTableStart := 512
        m_unEnvelopePhaseIncrement := 20
        m_unPitch := 1802
        m_nEnvelopePitchModulation := 512 } ∧
    (CVoice.ctor.setup 256 (F32.ofNat 440) 512 (F32.ofNat 1) 512).map
        (fun w => w.m_unWavePhaseIncrement) = some 1000 ∧
    (∀ (waveform : Nat) (pitch : F32) (envelope : Nat) (length : F32) (mod : Nat) (v : CVoice),
      (v.setup waveform pitch envelope length mod).map
          (fun w => (w.m_unWavePhaseIncrement, w.m_unWavePhaseAccumulator,
            w.m_unEnvelopePhaseAccumulator, w.m_sAmplitude)) =
        (v.setup waveform pitch envelope length mod).map
          (fun _ => (v.m_unWavePhaseIncrement, v.m_unWavePhaseAccumulator,
            v.m_unEnvelopePhaseAccumulator, v.m_sAmplitude))) := by
  refine ⟨by decide, by decide, ?_⟩
  intro waveform pitch envelope length mod v
  unfold CVoice.setup
  simp only []
  split <;> rfl

/-! ## `trigger` and the envelope step -/

/-- C15: `trigger()` sets the envelope accumulator to 0 and changes no other
member. -/
theorem C15_trigger_frame (v : CVoice) :
    v.trigger.m_unEnvelopePhaseAccumulator = 0 ∧
    v.trigger.m_unWavePhaseIncrement = v.m_unWavePhaseIncrement ∧
    v.trigger.m_unPitch = v.m_unPitch ∧
    v.trigger.m_unWavePhaseAccumulator = v.m_unWavePhaseAccumulator ∧
    v.trigger.m_sAmplitude = v.m_sAmplitude ∧
    v.trigger.m_unEnvelopePhaseIncrement = v.m_unEnvelopePhaseIncrement ∧
    v.trigger.m_unWaveTableStart = v.m_unWaveTableStart ∧
    v.trigger.m_unEnvelopeTableStart = v.m_unEnvelopeTableStart ∧
    v.trigger.m_nEnvelopePitchModulation = v.m_nEnvelopePitchModulation ∧
    v.trigger = { v with m_unEnvelopePhaseAccumulator := 0 } :=
  ⟨rfl, rfl, rfl, rfl, rfl, rfl, rfl, rfl, rfl, rfl⟩

/-- C17: the envelope step of `getSample`.  With `bUpdateEnvelope` set and
bit 15 of the envelope accumulator clear, the accumulator becomes
`(accumulator + increment) mod 65536` and the amplitude becomes 0 if the new
accumulator has bit 15 set, otherwise the envelope-table byte at
`new accumulator >> 7`; with bit 15 already set the accumulator is unchanged
and the amplitude becomes 0; with `bUpdateEnvelope` clear both are
unchanged. -/
theorem C17_envelope_step (pgm : Nat → Nat) (v : CVoice) (ue am : Nat) :
    (v.getSample pgm ue am).2.m_unEnvelopePhaseAccumulator =
      (if ue ≠ 0 ∧ v.m_unEnvelopePhaseAccumulator &&& 0x8000 = 0 then
        (v.m_unEnvelopePhaseAccumulator + v.m_unEnvelopePhaseIncrement) % 65536
      else v.m_unEnvelopePhaseAccumulator) ∧
    (v.getSample pgm ue am).2.m_sAmplitude =
      (if ue ≠ 0 then
        if v.m_unEnvelopePhaseAccumulator &&& 0x8000 = 0 then
          if ((v.m_unEnvelopePhaseAccumulator + v.m_unEnvelopePhaseIncrement) % 65536)
              &&& 0x8000 ≠ 0 then 0
          else pgm_read_byte pgm (v.m_unEnvelopeTableStart +
            (((v.m_unEnvelopePhaseAccumulator + v.m_unEnvelopePhaseIncrement) % 65536) >>> 7))
        else 0
      else v.m_sAmplitude) := by
  unfold CVoice.getSample
  simp only []
  split_ifs <;> simp_all

/-! ## The dividers of the tick handler -/

theorem OCR1A_ISR_dividers (pgm : Nat → Nat) (s : CIllutronB) :
    (s.OCR1A_ISR pgm).m_sEnvelopeDivider =
      (if 0 = s.m_sEnvelopeDivider then ENVELOPE_DIVIDER
        else (s.m_sEnvelopeDivider + 255) % 256) ∧
    (s.OCR1A_ISR pgm).m_unEnvelopePitchModulationDivider =
      (if 0 = s.bApplyEnvelopePitchModulation then MODULATION_PITCH_DIVIDER
        else (s.m_unEnvelopePitchModulationDivider + 65535) % 65536) := by
  unfold CIllutronB.OCR1A_ISR CIllutronB.bApplyEnvelopePitchModulation
  simp only []
  split_ifs <;> exact ⟨rfl, rfl⟩

theorem OCR1A_ISR_voices (pgm : Nat → Nat) (s : CIllutronB) (i : Fin 4) :
    (s.OCR1A_ISR pgm).m_Voices i =
      ((s.m_Voices i).getSample pgm s.bUpdateEnvelope s.bApplyEnvelopePitchModulation).2 := by
  unfold CIllutronB.OCR1A_ISR CIllutronB.bUpdateEnvelope CIllutronB.bApplyEnvelopePitchModulation
  simp only []
  split_ifs <;> fin_cases i <;> rfl

theorem ticks_envelopeDivider (pgm : Nat → Nat) (n : Nat) :
    (CIllutronB.ticks pgm n CIllutronB.initial).m_sEnvelopeDivider = 4 - n % 5 := by
  induction n with
  | zero => rfl
  | succ k ih =>
    simp only [CIllutronB.ticks]
    rw [(OCR1A_ISR_dividers pgm _).1, ih]
    unfold ENVELOPE_DIVIDER
    split_ifs <;> omega

theorem ticks_modulationDivider (pgm : Nat → Nat) (n : Nat) :
    (CIllutronB.ticks pgm n CIllutronB.initial).m_unEnvelopePitchModulationDivider = 800 := by
  induction n with
  | zero => rfl
  | succ k ih =>
    simp only [CIllutronB.ticks]
    rw [(OCR1A_ISR_dividers pgm _).2]
    unfold CIllutronB.bApplyEnvelopePitchModulation
    rw [ih]
    rfl

/-- C18 (evaluation of the code): the handler passes the local
`bUpdateEnvelope` to the four voices; from the initial state the envelope
divider is `4 - n mod 5` after `n` ticks, so the flag of tick `n + 1` is 1
exactly when 5 divides `n + 1`: it is 0 on the 4th tick and 1 on the 5th, a
period of 5 ticks, not 4. -/
theorem C18_envelope_gate_every_fifth_tick (pgm : Nat → Nat) (n : Nat) :
    (∀ (s : CIllutronB) (i : Fin 4), (s.OCR1A_ISR pgm).m_Voices i =
      ((s.m_Voices i).getSample pgm s.bUpdateEnvelope s.bApplyEnvelopePitchModulation).2) ∧
    (CIllutronB.ticks pgm n CIllutronB.initial).m_sEnvelopeDivider = 4 - n % 5 ∧
    ((CIllutronB.ticks pgm n CIllutronB.initial).bUpdateEnvelope = 1 ↔ 5 ∣ n + 1) ∧
    ((CIllutronB.ticks pgm n CIllutronB.initial).bUpdateEnvelope = 0 ↔ ¬ 5 ∣ n + 1) ∧
    (CIllutronB.ticks pgm 3 CIllutronB.initial).bUpdateEnvelope = 0 ∧
    (CIllutronB.ticks pgm 4 CIllutronB.initial).bUpdateEnvelope = 1 := by
  have hd := ticks_envelopeDivider pgm
  have hflag : ∀ k : Nat, (CIllutronB.ticks pgm k CIllutronB.initial).bUpdateEnvelope =
      if k % 5 = 4 then 1 else 0 := by
    intro k
    unfold CIllutronB.bUpdateEnvelope
    rw [hd k]
    split_ifs <;> omega
  have hdvd : 5 ∣ n + 1 ↔ n % 5 = 4 := by omega
  refine ⟨OCR1A_ISR_voices pgm, hd n, ?_, ?_, ?_, ?_⟩
  · rw [hflag n, hdvd]
    split_ifs <;> simp_all
  · rw [hflag n, hdvd]
    split_ifs <;> simp_all
  · rw [hflag 3]; rfl
  · rw [hflag 4]; rfl

/-- C19 (evaluation of the code): from the initial state the modulation
divider is reset to 800 on every tick on which it is non-zero, so on the
800th tick, and on every later multiple of 800, the flag
`bApplyEnvelopePitchModulation` passed to the voices is 0. -/
theorem C19_modulation_gate_at_multiples_of_800 (pgm : Nat → Nat) (k : Nat) :
    (CIllutronB.ticks pgm 799 CIllutronB.initial).bApplyEnvelopePitchModulation = 0 ∧
    (CIllutronB.ticks pgm (800 * k + 799) CIllutronB.initial).bApplyEnvelopePitchModulation = 0 ∧
    (CIllutronB.ticks pgm (800 * k + 799) CIllutronB.initial).m_unEnvelopePitchModulationDivider
      = 800 := by
  have h : ∀ n : Nat,
      (CIllutronB.ticks pgm n CIllutronB.initial).bApplyEnvelopePitchModulation = 0 := by
    intro n
    unfold CIllutronB.bApplyEnvelopePitchModulation
    rw [ticks_modulationDivider pgm n]
    rfl
  exact ⟨h 799, h _, ticks_modulationDivider pgm _⟩

/-! ## Reads of the envelope table -/

theorem getSampleTraced_fst (pgm : Nat → Nat) (v : CVoice) (ue am : Nat) :
    (v.getSampleTraced pgm ue am).1 = v.getSample pgm ue am := by
  unfold CVoice.getSampleTraced CVoice.getSample
  simp only []
  split_ifs <;> simp_all

/-- C20 as stated fails: with the envelope accumulator at 32760 and the
increment 10, a `getSample` call with `bUpdateEnvelope` set advances the
accumulator to 32770 and reads the envelope table at index `32770 >> 7 = 256`
before it tests bit 15. -/
theorem C20_counterexample :
    (({ CVoice.ctor with m_unEnvelopePhaseAccumulator := 32760 } : CVoice).getSampleTraced
        (fun _ => 200) 1 0).2 = [Read.envelope 256] := by
  decide

theorem getSampleTraced_reads (pgm : Nat → Nat) (v : CVoice) (ue am : Nat) :
    (v.getSampleTraced pgm ue am).2 =
      (if ue ≠ 0 ∧ v.m_unEnvelopePhaseAccumulator &&& 0x8000 = 0 then
        [Read.envelope
          (((v.m_unEnvelopePhaseAccumulator + v.m_unEnvelopePhaseIncrement) % 65536) >>> 7)]
      else []) ++
      (if (v.getSample pgm ue am).2.m_sAmplitude = 0 then []
      else [Read.wave ((v.getSample pgm ue am).2.m_unWavePhaseAccumulator >>> 8)]) := by
  unfold CVoice.getSampleTraced CVoice.getSample
  simp only []
  split_ifs <;> simp_all

/-- C20, amended: `getSampleTraced` returns what `getSample` returns, and
every envelope-table read of a call is made with `bUpdateEnvelope` set and
bit 15 of the old accumulator clear, at the index `new accumulator >> 7`,
which is in `0..511`; it is the only envelope-table read of the call (the
reads of the call are this one, followed by one wave-table read when the
amplitude is non-zero); the index is in `0..255` exactly when the new
accumulator has bit 15 clear, and then the byte read becomes the amplitude;
when the addition sets bit 15 the index is in `256..511` and the byte read is
discarded (the amplitude is 0). -/
theorem C20_envelope_read_index (pgm : Nat → Nat) (v : CVoice) (ue am i : Nat)
    (h : Read.envelope i ∈ (v.getSampleTraced pgm ue am).2) :
    (v.getSampleTraced pgm ue am).1 = v.getSample pgm ue am ∧
    ue ≠ 0 ∧ v.m_unEnvelopePhaseAccumulator &&& 0x8000 = 0 ∧
    i = ((v.m_unEnvelopePhaseAccumulator + v.m_unEnvelopePhaseIncrement) % 65536) >>> 7 ∧
    i < 512 ∧
    (i < 256 ↔
      ((v.m_unEnvelopePhaseAccumulator + v.m_unEnvelopePhaseIncrement) % 65536) &&& 0x8000 = 0) ∧
    (i < 256 → (v.getSample pgm ue am).2.m_sAmplitude =
      pgm_read_byte pgm (v.m_unEnvelopeTableStart + i)) ∧
    (256 ≤ i → (v.getSample pgm ue am).2.m_sAmplitude = 0) ∧
    (v.getSampleTraced pgm ue am).2 =
      Read.envelope i ::
        (if (v.getSample pgm ue am).2.m_sAmplitude = 0 then []
        else [Read.wave ((v.getSample pgm ue am).2.m_unWavePhaseAccumulator >>> 8)]) := by
  have hlt : (v.m_unEnvelopePhaseAccumulator + v.m_unEnvelopePhaseIncrement) % 65536 < 65536 :=
    Nat.mod_lt _ (by norm_num)
  have hbit := land_sentinel_of_lt _ hlt
  have hsh : ((v.m_unEnvelopePhaseAccumulator + v.m_unEnvelopePhaseIncrement) % 65536) >>> 7 =
      ((v.m_unEnvelopePhaseAccumulator + v.m_unEnvelopePhaseIncrement) % 65536) / 128 := by
    rw [Nat.shiftRight_eq_div_pow]
  have hmem : ue ≠ 0 ∧ v.m_unEnvelopePhaseAccumulator &&& 0x8000 = 0 ∧
      i = ((v.m_unEnvelopePhaseAccumulator + v.m_unEnvelopePhaseIncrement) % 65536) >>> 7 := by
    unfold CVoice.getSampleTraced at h
    simp only [] at h
    split_ifs at h <;> simp_all
  obtain ⟨hue, hclear, hi⟩ := hmem
  have hamp := (getSample_envelope_step pgm v ue am).2
  rw [if_pos hue, if_pos hclear] at hamp
  refine ⟨getSampleTraced_fst pgm v ue am, hue, hclear, hi, ?_, ?_, ?_, ?_, ?_⟩
  · rw [hi, hsh]; omega
  · rw [hi, hsh, hbit]; omega
  · intro h256
    have hz := (hbit.mpr (by rw [hi, hsh] at h256; omega))
    rw [hamp, if_neg (by simpa using hz), hi]
  · intro h256
    have hnz : ((v.m_unEnvelopePhaseAccumulator + v.m_unEnvelopePhaseIncrement) % 65536)
        &&& 0x8000 ≠ 0 := by
      intro hz
      have := hbit.mp hz
      rw [hi, hsh] at h256
      omega
    rw [hamp, if_pos hnz]
  · rw [getSampleTraced_reads, if_pos ⟨hue, hclear⟩, ← hi]
    rfl

/-- C20 (amended) at a concrete input: the voice of the counterexample. -/
theorem C20_envelope_read_index_witness :
    Read.envelope 256 ∈
        (({ CVoice.ctor with m_unEnvelopePhaseAccumulator := 32760 } : CVoice).getSampleTraced
          (fun _ => 200) 1 0).2 ∧
      (({ CVoice.ctor with m_unEnvelopePhaseAccumulator := 32760 } : CVoice).getSample
          (fun _ => 200) 1 0).2.m_sAmplitude = 0 :=
  ⟨by decide,
    (C20_envelope_read_index (fun _ => 200)
      { CVoice.ctor with m_unEnvelopePhaseAccumulator := 32760 } 1 0 256
      (by decide)).2.2.2.2.2.2.2.1 (by decide)⟩


/-! ## `triggerPitch` -/

theorem log2Aux_spec : ∀ fuel n : Nat, 0 < n → n < 2 ^ (fuel + 1) →
    2 ^ (log2Aux fuel n) ≤ n ∧ n < 2 ^ (log2Aux fuel n + 1) := by
  intro fuel
  induction fuel with
  | zero =>
    intro n hn hlt
    have h1 : n = 1 := by
      have : (2 : Nat) ^ (0 + 1) = 2 := by norm_num
      omega
    subst h1
    simp [log2Aux]
  | succ k ih =>
    intro n hn hlt
    simp only [log2Aux]
    split_ifs with h2
    · have hp : (2 : Nat) ^ (k + 1 + 1) = 2 * 2 ^ (k + 1) := by ring
      obtain ⟨a, b⟩ := ih (n / 2) (by omega) (by omega)
      have hp1 : (2 : Nat) ^ (log2Aux k (n / 2) + 1) = 2 * 2 ^ (log2Aux k (n / 2)) := by ring
      have hp2 : (2 : Nat) ^ (log2Aux k (n / 2) + 1 + 1) = 2 * 2 ^ (log2Aux k (n / 2) + 1) := by
        ring
      constructor
      · rw [hp1]; omega
      · rw [hp2]; omega
    · have h1 : n = 1 := by omega
      subst h1
      simp

theorem ilog2_spec (n : Nat) (hn : 0 < n) : 2 ^ ilog2 n ≤ n ∧ n < 2 ^ (ilog2 n + 1) := by
  unfold ilog2
  apply log2Aux_spec n n hn
  have h1 : n < 2 ^ n := Nat.lt_two_pow n
  have h2 : (2 : Nat) ^ (n + 1) = 2 * 2 ^ n := by ring
  omega

theorem le_ilog2 (n k : Nat) (h : 2 ^ k ≤ n) : k ≤ ilog2 n := by
  have hn : 0 < n := Nat.lt_of_lt_of_le (pow_pos (by norm_num) k) h
  obtain ⟨-, h2⟩ := ilog2_spec n hn
  by_contra hc
  have h3 : (2 : Nat) ^ (ilog2 n + 1) ≤ 2 ^ k := Nat.pow_le_pow_right (by norm_num) (by omega)
  omega

theorem round_tail_bounds (n1 d1 R : Nat) (e1 : Int)
    (h1 : R ≤ d1) (h2 : d1 < 2 * R) (h3 : 16777216 * R ≤ n1)
    (h4 : n1 < 33554432 * R) :
    ∃ (m : Nat) (e' : Int),
      (let d2 := if 2 ^ 24 * d1 ≤ n1 then 2 * d1 else d1
       let e2 : Int := if 2 ^ 24 * d1 ≤ n1 then e1 + 1 else e1
       let q := n1 / d2
       let r := n1 % d2
       let q1 := if d2 < 2 * r ∨ (2 * r = d2 ∧ q % 2 = 1) then q + 1 else q
       if q1 = 2 ^ 24 then F32.fin (2 ^ 23) (e2 + 1) else F32.fin q1 e2) = F32.fin m e' ∧
      8388608 ≤ m ∧ m < 16777216 ∧ e1 ≤ e' ∧ e' ≤ e1 + 2 ∧ (d1 = R → e1 + 1 ≤ e') := by
  simp only []
  have hpow24 : (2 : Nat) ^ 24 = 16777216 := by norm_num
  have hpow23 : (2 : Nat) ^ 23 = 8388608 := by norm_num
  rw [hpow24, hpow23]
  by_cases hc : 16777216 * d1 ≤ n1
  · simp only [hc, if_true]
    have hq1 : 8388608 ≤ n1 / (2 * d1) := by
      rw [Nat.le_div_iff_mul_le (by omega)]
      omega
    have hq2 : n1 / (2 * d1) < 16777216 := by
      rw [Nat.div_lt_iff_lt_mul (by omega)]
      omega
    split_ifs with ha hb hb
    · exact ⟨_, _, rfl, by omega, by omega, by omega, by omega, by intro _; omega⟩
    · exact ⟨_, _, rfl, by omega, by omega, by omega, by omega, by intro _; omega⟩
    · exact ⟨_, _, rfl, by omega, by omega, by omega, by omega, by intro _; omega⟩
    · exact ⟨_, _, rfl, by omega, by omega, by omega, by omega, by intro _; omega⟩
  · simp only [hc, if_false]
    have hq1 : 8388608 ≤ n1 / d1 := by
      rw [Nat.le_div_iff_mul_le (by omega)]
      omega
    have hq2 : n1 / d1 < 16777216 := by
      rw [Nat.div_lt_iff_lt_mul (by omega)]
      omega
    split_ifs with ha hb hb
    · exact ⟨_, _, rfl, by omega, by omega, by omega, by omega, by intro _; omega⟩
    · exact ⟨_, _, rfl, by omega, by omega, by omega, by omega, by intro _; omega⟩
    · exact ⟨_, _, rfl, by omega, by omega, by omega, by omega, by intro _; omega⟩
    · exact ⟨_, _, rfl, by omega, by omega, by omega, by omega, by intro _; omega⟩

theorem F32_round_bounds (n d : Nat) (e : Int) (hn : 0 < n) (hd : 0 < d) :
    ∃ (m : Nat) (e' : Int), F32.round n d e = F32.fin m e' ∧
      8388608 ≤ m ∧ m < 16777216 ∧
      e + (ilog2 n : Int) - (ilog2 d : Int) - 24 ≤ e' ∧
      e' ≤ e + (ilog2 n : Int) - (ilog2 d : Int) - 22 ∧
      (d = 1 → e + (ilog2 n : Int) - 23 ≤ e') := by
  obtain ⟨hn1, hn2⟩ := ilog2_spec n hn
  obtain ⟨hd1, hd2⟩ := ilog2_spec d hd
  have hone : d = 1 → ilog2 d = 0 := by
    intro h1
    subst h1
    rfl
  have hsn : (2 : Nat) ^ (ilog2 n + 1) = 2 * 2 ^ ilog2 n := by ring
  have hsd : (2 : Nat) ^ (ilog2 d + 1) = 2 * 2 ^ ilog2 d := by ring
  rw [hsn] at hn2
  rw [hsd] at hd2
  have key : ∃ R : Nat,
      R ≤ (if ilog2 n ≤ 24 + ilog2 d then d else d * 2 ^ (ilog2 n - 24 - ilog2 d)) ∧
      (if ilog2 n ≤ 24 + ilog2 d then d else d * 2 ^ (ilog2 n - 24 - ilog2 d)) < 2 * R ∧
      16777216 * R ≤
        (if ilog2 n ≤ 24 + ilog2 d then n * 2 ^ (24 + ilog2 d - ilog2 n) else n) ∧
      (if ilog2 n ≤ 24 + ilog2 d then n * 2 ^ (24 + ilog2 d - ilog2 n) else n) <
        33554432 * R ∧
      (d = 1 →
        (if ilog2 n ≤ 24 + ilog2 d then d else d * 2 ^ (ilog2 n - 24 - ilog2 d)) = R) := by
    by_cases hc : ilog2 n ≤ 24 + ilog2 d
    · simp only [hc, if_true]
      have hpow : 2 ^ ilog2 n * 2 ^ (24 + ilog2 d - ilog2 n) = 16777216 * 2 ^ ilog2 d := by
        rw [← pow_add]
        have : ilog2 n + (24 + ilog2 d - ilog2 n) = 24 + ilog2 d := by omega
        rw [this, pow_add]
        norm_num
      have hpos : 0 < 2 ^ (24 + ilog2 d - ilog2 n) := pow_pos (by norm_num) _
      have ha : 2 ^ ilog2 n * 2 ^ (24 + ilog2 d - ilog2 n) ≤
          n * 2 ^ (24 + ilog2 d - ilog2 n) := Nat.mul_le_mul_right _ hn1
      have hb : n * 2 ^ (24 + ilog2 d - ilog2 n) <
          2 * 2 ^ ilog2 n * 2 ^ (24 + ilog2 d - ilog2 n) :=
        Nat.mul_lt_mul_of_pos_right hn2 hpos
      have hb2 : 2 * 2 ^ ilog2 n * 2 ^ (24 + ilog2 d - ilog2 n) =
          2 * (2 ^ ilog2 n * 2 ^ (24 + ilog2 d - ilog2 n)) := by ring
      refine ⟨2 ^ ilog2 d, hd1, hd2, by omega, by omega, ?_⟩
      intro h1
      rw [hone h1, h1]
      norm_num
    · simp only [hc, if_false]
      have hpow : 2 ^ ilog2 n = 16777216 * (2 ^ ilog2 d * 2 ^ (ilog2 n - 24 - ilog2 d)) := by
        rw [← pow_add]
        have : ilog2 n = 24 + (ilog2 d + (ilog2 n - 24 - ilog2 d)) := by omega
        conv_lhs => rw [this]
        rw [pow_add]
        norm_num
      have hpos : 0 < 2 ^ (ilog2 n - 24 - ilog2 d) := pow_pos (by norm_num) _
      have ha : 2 ^ ilog2 d * 2 ^ (ilog2 n - 24 - ilog2 d) ≤
          d * 2 ^ (ilog2 n - 24 - ilog2 d) := Nat.mul_le_mul_right _ hd1
      have hb : d * 2 ^ (ilog2 n - 24 - ilog2 d) <
          2 * 2 ^ ilog2 d * 2 ^ (ilog2 n - 24 - ilog2 d) :=
        Nat.mul_lt_mul_of_pos_right hd2 hpos
      have hb2 : 2 * 2 ^ ilog2 d * 2 ^ (ilog2 n - 24 - ilog2 d) =
          2 * (2 ^ ilog2 d * 2 ^ (ilog2 n - 24 - ilog2 d)) := by ring
      refine ⟨2 ^ ilog2 d * 2 ^ (ilog2 n - 24 - ilog2 d), ha, by omega, by omega, by omega, ?_⟩
      intro h1
      rw [hone h1, h1]
      norm_num
  obtain ⟨R, k1, k2, k3, k4, k5⟩ := key
  obtain ⟨m, e', hm, b1, b2, b3, b4, b5⟩ :=
    round_tail_bounds _ _ R (e + (ilog2 n : Int) - 24 - (ilog2 d : Int)) k1 k2 k3 k4
  refine ⟨m, e', ?_, b1, b2, by omega, by omega, ?_⟩
  · unfold F32.round
    rw [if_neg (by omega), if_neg (by omega)]
    exact hm
  · intro h1
    have := b5 (k5 h1)
    have := hone h1
    omega

theorem F32_toUInt16_small (m : Nat) (e : Int) (hm : m < 16777216) (he : e ≤ -24) :
    F32.toUInt16 (F32.fin m e) = some 0 := by
  unfold F32.toUInt16
  have hneg : ¬ (0 ≤ e) := by omega
  have hle : 24 ≤ (-e).toNat := by omega
  have hpow : (2 : Nat) ^ 24 ≤ 2 ^ (-e).toNat := Nat.pow_le_pow_right (by norm_num) hle
  have hdiv : m / 2 ^ (-e).toNat = 0 := Nat.div_eq_of_lt (by omega)
  simp only [hneg, if_false, hdiv]
  rfl

theorem F32_mul_fin (m1 m2 : Nat) (e1 e2 : Int) :
    F32.mul (F32.fin m1 e1) (F32.fin m2 e2) = F32.round (m1 * m2) 1 (e1 + e2) := rfl

theorem F32_div_fin (m1 m2 : Nat) (e1 e2 : Int) :
    F32.div (F32.fin m1 e1) (F32.fin m2 e2) = F32.round m1 m2 (e1 - e2) := rfl

theorem triggerPitchIncrement_high (f : Nat) (h64 : 64 ≤ f) :
    triggerPitchIncrement f = some 0 := by
  unfold triggerPitchIncrement F32.ofNat
  obtain ⟨m1, a1, r1, m1a, m1b, -, -, ha1⟩ := F32_round_bounds f 1 0 (by omega) (by norm_num)
  have hl6 : 6 ≤ ilog2 f := le_ilog2 f 6 (by norm_num; omega)
  have ha1' := ha1 rfl
  have h256 : F32.round 256 1 0 = F32.fin 8388608 (-15) := by decide
  have h8000 : F32.round UPDATE_RATE 1 0 = F32.fin 16384000 (-11) := by decide
  rw [r1, h256, h8000, F32_mul_fin]
  obtain ⟨m2, a2, r2, m2a, m2b, -, -, ha2⟩ :=
    F32_round_bounds (m1 * 8388608) 1 (a1 + -15) (by omega) (by norm_num)
  have hl46 : 46 ≤ ilog2 (m1 * 8388608) := le_ilog2 _ 46 (by norm_num; omega)
  have ha2' := ha2 rfl
  rw [r2, F32_div_fin]
  obtain ⟨m3, a3, r3, -, m3b, -, ha3, -⟩ :=
    F32_round_bounds 16384000 m2 (-11 - a2) (by norm_num) (by omega)
  have hl23 : ilog2 16384000 = 23 := by decide
  have hl23' : 23 ≤ ilog2 m2 := le_ilog2 _ 23 (by norm_num; omega)
  rw [r3]
  apply F32_toUInt16_small m3 a3 m3b
  rw [hl23] at ha3
  omega

set_option maxRecDepth 1000000 in
theorem triggerPitchIncrement_low :
    ∀ f : Nat, f < 64 → 1 ≤ f → triggerPitchIncrement f = some (8000 / (f * 256)) := by
  decide

theorem triggerPitchIncrement_eq (f : Nat) (h1 : 1 ≤ f) :
    triggerPitchIncrement f = some (8000 / (f * 256)) := by
  by_cases h : f < 64
  · exact triggerPitchIncrement_low f h h1
  · rw [triggerPitchIncrement_high f (by omega)]
    have : 8000 / (f * 256) = 0 := Nat.div_eq_of_lt (by omega)
    rw [this]

/-- C14: for every `frequencyHz ≥ 1`, `triggerPitch(frequencyHz)` sets the
wave increment to `trunc(8000 / (frequencyHz * 256))` and the envelope
accumulator to 0, and leaves every other member unchanged. -/
theorem C14_triggerPitch_effect (f : Nat) (v : CVoice) (h1 : 1 ≤ f) :
    ∃ w : CVoice, v.triggerPitch f = some w ∧
      w.m_unWavePhaseIncrement = 8000 / (f * 256) ∧
      w.m_unWavePhaseIncrement = ⌊(8000 : ℚ) / ((f : ℚ) * 256)⌋₊ ∧
      w.m_unEnvelopePhaseAccumulator = 0 ∧
      w.m_unPitch = v.m_unPitch ∧
      w.m_unWavePhaseAccumulator = v.m_unWavePhaseAccumulator ∧
      w.m_sAmplitude = v.m_sAmplitude ∧
      w.m_unEnvelopePhaseIncrement = v.m_unEnvelopePhaseIncrement ∧
      w.m_unWaveTableStart = v.m_unWaveTableStart ∧
      w.m_unEnvelopeTableStart = v.m_unEnvelopeTableStart ∧
      w.m_nEnvelopePitchModulation = v.m_nEnvelopePitchModulation := by
  have hfloor : ⌊(8000 : ℚ) / ((f : ℚ) * 256)⌋₊ = 8000 / (f * 256) := by
    have h := @Nat.floor_div_eq_div ℚ _ _ 8000 (f * 256)
    push_cast at h
    exact h
  refine ⟨{ v with m_unWavePhaseIncrement := 8000 / (f * 256),
                   m_unEnvelopePhaseAccumulator := 0 },
    ?_, rfl, hfloor.symm, rfl, rfl, rfl, rfl, rfl, rfl, rfl, rfl⟩
  unfold CVoice.triggerPitch
  rw [triggerPitchIncrement_eq f h1]

/-- C14 at a concrete input: 3 Hz gives the increment `8000 / 768 = 10`. -/
theorem C14_triggerPitch_effect_witness :
    1 ≤ 3 ∧ ∃ w : CVoice, CVoice.ctor.triggerPitch 3 = some w ∧
      w.m_unWavePhaseIncrement = 10 ∧ w.m_unEnvelopePhaseAccumulator = 0 := by
  obtain ⟨w, hw, h1, -, h2, -⟩ := C14_triggerPitch_effect 3 CVoice.ctor (by decide)
  exact ⟨by decide, w, hw, by rw [h1], h2⟩

/-! ## The modulation flag -/

/-- C21: the flag `bApplyEnvelopePitchModulation` has no effect: for every
voice, program memory and value of `bUpdateEnvelope`, `getSample` returns the
same sample and leaves the same state whatever the value of the flag, and the
wave increment and the baseline pitch are unchanged. -/
theorem C21_modulation_flag_no_effect (pgm : Nat → Nat) (v : CVoice) (ue am1 am2 : Nat) :
    v.getSample pgm ue am1 = v.getSample pgm ue am2 ∧
    v.getSample pgm ue 1 = v.getSample pgm ue 0 ∧
    (v.getSample pgm ue am1).2.m_unWavePhaseIncrement = v.m_unWavePhaseIncrement ∧
    (v.getSample pgm ue am1).2.m_unPitch = v.m_unPitch := by
  have h : ∀ a b : Nat, v.getSample pgm ue a = v.getSample pgm ue b := by
    intro a b
    unfold CVoice.getSample
    simp only [ite_self]
  obtain ⟨f1, -, -, -, f5, -⟩ := getSample_frame pgm v ue am1
  exact ⟨h am1 am2, h 1 0, f1, f5⟩

/-- C22: from the initial state (modulation divider 800) the modulation
divider is 800 after every tick, and the flag
`bApplyEnvelopePitchModulation` that the handler computes is 0 on every tick
(the flag of tick `n + 1` is computed from the state after `n` ticks). -/
theorem C22_modulation_divider_stuck (pgm : Nat → Nat) (n : Nat) :
    CIllutronB.initial.m_unEnvelopePitchModulationDivider = 800 ∧
    (CIllutronB.ticks pgm n CIllutronB.initial).m_unEnvelopePitchModulationDivider = 800 ∧
    (CIllutronB.ticks pgm n CIllutronB.initial).bApplyEnvelopePitchModulation = 0 ∧
    (∀ i : Fin 4, (CIllutronB.ticks pgm (n + 1) CIllutronB.initial).m_Voices i =
      (((CIllutronB.ticks pgm n CIllutronB.initial).m_Voices i).getSample pgm
        (CIllutronB.ticks pgm n CIllutronB.initial).bUpdateEnvelope 0).2) := by
  have hd := ticks_modulationDivider pgm n
  have hf : (CIllutronB.ticks pgm n CIllutronB.initial).bApplyEnvelopePitchModulation = 0 := by
    unfold CIllutronB.bApplyEnvelopePitchModulation
    rw [hd]
    rfl
  refine ⟨rfl, hd, hf, ?_⟩
  intro i
  have hv := OCR1A_ISR_voices pgm (CIllutronB.ticks pgm n CIllutronB.initial) i
  rw [hf] at hv
  simp only [CIllutronB.ticks]
  exact hv

/-! ## `triggerPitch` at audio frequencies -/

theorem getSamples_waveAcc_of_zero_increment (pgm : Nat → Nat) (fl : List (Nat × Nat)) :
    ∀ v : CVoice, v.m_unWavePhaseIncrement = 0 → v.m_unWavePhaseAccumulator < 65536 →
      (v.getSamples pgm fl).2.m_unWavePhaseAccumulator = v.m_unWavePhaseAccumulator := by
  induction fl with
  | nil => intro v _ _; rfl
  | cons f rest ih =>
    intro v h0 hlt
    have hacc := getSample_waveAcc pgm v f.1 f.2
    have hinc := (getSample_frame pgm v f.1 f.2).1
    rw [h0, Nat.add_zero, Nat.mod_eq_of_lt hlt] at hacc
    simp only [CVoice.getSamples]
    rw [ih _ (by rw [hinc, h0]) (by rw [hacc]; exact hlt), hacc]

/-- C23: for every `frequencyHz ≥ 32`, `triggerPitch(frequencyHz)` sets the
wave increment to 0, and every subsequent sequence of `getSample` calls leaves
the wave phase accumulator where it was; for a frequency `≥ 1` the increment
is non-zero exactly when the frequency is at most 31. -/
theorem C23_triggerPitch_zero_increment (pgm : Nat → Nat) (f : Nat) (v : CVoice)
    (h32 : 32 ≤ f) (hacc : v.m_unWavePhaseAccumulator < 65536) :
    (∃ w : CVoice, v.triggerPitch f = some w ∧ w.m_unWavePhaseIncrement = 0 ∧
      w.m_unWavePhaseAccumulator = v.m_unWavePhaseAccumulator ∧
      ∀ fl : List (Nat × Nat),
        (w.getSamples pgm fl).2.m_unWavePhaseAccumulator = v.m_unWavePhaseAccumulator) ∧
    (∀ g : Nat, 1 ≤ g →
      ∃ w : CVoice, v.triggerPitch g = some w ∧ (w.m_unWavePhaseIncrement ≠ 0 ↔ g ≤ 31)) := by
  have htrig : ∀ g : Nat, 1 ≤ g → v.triggerPitch g =
      some { v with m_unWavePhaseIncrement := 8000 / (g * 256),
                    m_unEnvelopePhaseAccumulator := 0 } := by
    intro g hg
    unfold CVoice.triggerPitch
    rw [triggerPitchIncrement_eq g hg]
  constructor
  · have hz : 8000 / (f * 256) = 0 := Nat.div_eq_of_lt (by omega)
    refine ⟨_, htrig f (by omega), hz, rfl, ?_⟩
    intro fl
    exact getSamples_waveAcc_of_zero_increment pgm fl _ hz hacc
  · intro g hg
    refine ⟨_, htrig g hg, ?_⟩
    show 8000 / (g * 256) ≠ 0 ↔ g ≤ 31
    constructor
    · intro hne
      by_contra hgt
      exact hne (Nat.div_eq_of_lt (by omega))
    · intro hle hz
      have h1 : 1 ≤ 8000 / (g * 256) := by
        rw [Nat.le_div_iff_mul_le (by omega)]
        omega
      omega

/-- C23 at a concrete input: 440 Hz on the constructed voice. -/
theorem C23_triggerPitch_zero_increment_witness :
    32 ≤ 440 ∧ CVoice.ctor.m_unWavePhaseAccumulator < 65536 ∧
      ∃ w : CVoice, CVoice.ctor.triggerPitch 440 = some w ∧ w.m_unWavePhaseIncrement = 0 ∧
        (w.getSamples (fun _ => 200) [(0, 0), (1, 0), (0, 1)]).2.m_unWavePhaseAccumulator =
          CVoice.ctor.m_unWavePhaseAccumulator := by
  obtain ⟨⟨w, hw, h0, -, hfl⟩, -⟩ :=
    C23_triggerPitch_zero_increment (fun _ => 200) 440 CVoice.ctor (by decide) (by decide)
  exact ⟨by decide, by decide, w, hw, h0, hfl _⟩

/-! ## The range of the mixed value -/

/-- C24: for four samples in `-128..126` (the range of `getSample`), the
mixed value `127 + ((s0 + s1 + s2 + s3) >> 2)` lies in `-1..253`; it is
non-negative exactly when the sum is at least -508; when the sum is at most
-509 it is -1 and the 8-bit register receives 255.  Four samples of -128 are
such a case, and -128 is what `getSample` returns for the wave byte -128 at
amplitude 255. -/
theorem C24_mixed_value_range (s0 s1 s2 s3 : Int)
    (h0 : -128 ≤ s0 ∧ s0 ≤ 126) (h1 : -128 ≤ s1 ∧ s1 ≤ 126)
    (h2 : -128 ≤ s2 ∧ s2 ≤ 126) (h3 : -128 ≤ s3 ∧ s3 ≤ 126) :
    -1 ≤ 127 + ((s0 + s1 + s2 + s3) >>> (2 : Nat)) ∧
    127 + ((s0 + s1 + s2 + s3) >>> (2 : Nat)) ≤ 253 ∧
    (0 ≤ 127 + ((s0 + s1 + s2 + s3) >>> (2 : Nat)) ↔ -508 ≤ s0 + s1 + s2 + s3) ∧
    (s0 + s1 + s2 + s3 ≤ -509 →
      127 + ((s0 + s1 + s2 + s3) >>> (2 : Nat)) = -1 ∧ mixOutput s0 s1 s2 s3 = 255) ∧
    (-508 ≤ s0 + s1 + s2 + s3 →
      (mixOutput s0 s1 s2 s3 : Int) = 127 + ((s0 + s1 + s2 + s3) >>> (2 : Nat))) ∧
    mixOutput (-128) (-128) (-128) (-128) = 255 ∧
    (({ CVoice.ctor with m_sAmplitude := 255 } : CVoice).getSample (fun _ => 128) 0 0).1 = -128 := by
  have hsum : (s0 + s1) + (s2 + s3) = s0 + s1 + s2 + s3 := by ring
  have hsh : ∀ x : Int, x >>> (2 : Nat) = x / 4 := by
    intro x
    rw [Int.shiftRight_eq_div_pow]
    norm_num
  have hmix : (mixOutput s0 s1 s2 s3 : Int) = (127 + (s0 + s1 + s2 + s3) / 4) % 256 := by
    unfold mixOutput
    rw [hsum, hsh]
    apply Int.toNat_of_nonneg
    apply Int.emod_nonneg
    norm_num
  rw [hsh]
  refine ⟨by omega, by omega, by omega, ?_, ?_, by decide, by decide⟩
  · intro hle
    refine ⟨by omega, ?_⟩
    have : (mixOutput s0 s1 s2 s3 : Int) = 255 := by rw [hmix]; omega
    exact_mod_cast this
  · intro hge
    rw [hmix]
    omega

/-- C24 at a concrete input: four samples of -128. -/
theorem C24_mixed_value_range_witness :
    ((-128 : Int) ≤ -128 ∧ (-128 : Int) ≤ 126) ∧
      (127 + (((-128 : Int) + (-128) + (-128) + (-128)) >>> (2 : Nat)) = -1 ∧
        mixOutput (-128) (-128) (-128) (-128) = 255) :=
  ⟨by decide,
    (C24_mixed_value_range (-128) (-128) (-128) (-128)
      (by decide) (by decide) (by decide) (by decide)).2.2.2.1 (by decide)⟩

/-! ## The length of a note in envelope updates -/

theorem updates_lt_ceil_iff (inc k : Nat) (h : 1 ≤ inc) :
    k < (32768 + inc - 1) / inc ↔ k * inc < 32768 := by
  have h1 : k < (32768 + inc - 1) / inc ↔ k + 1 ≤ (32768 + inc - 1) / inc := Iff.rfl
  rw [h1, Nat.le_div_iff_mul_le (by omega)]
  have h2 : (k + 1) * inc = k * inc + inc := by ring
  rw [h2]
  omega

theorem getSamples_no_update (pgm : Nat → Nat) (fl : List (Nat × Nat)) :
    ∀ v : CVoice, updateCount fl = 0 →
      (v.getSamples pgm fl).2.m_unEnvelopePhaseAccumulator = v.m_unEnvelopePhaseAccumulator ∧
      (v.getSamples pgm fl).2.m_sAmplitude = v.m_sAmplitude := by
  induction fl with
  | nil => intro v _; exact ⟨rfl, rfl⟩
  | cons f rest ih =>
    intro v hc
    have hf : f.1 = 0 := by
      by_contra hne
      simp [updateCount, hne] at hc
    have hrest : updateCount rest = 0 := by
      simpa [updateCount, hf] using hc
    obtain ⟨e1, e2⟩ := getSample_envelope_step pgm v f.1 f.2
    rw [hf] at e1 e2
    simp only [ne_eq, not_true_eq_false, false_and, if_false] at e1 e2
    obtain ⟨i1, i2⟩ := ih (v.getSample pgm f.1 f.2).2 hrest
    simp only [CVoice.getSamples]
    rw [hf] at i1 i2 ⊢
    exact ⟨by rw [i1, e1], by rw [i2, e2]⟩

theorem getSamples_below_sentinel (pgm : Nat → Nat) (fl : List (Nat × Nat)) :
    ∀ v : CVoice,
      v.m_unEnvelopePhaseAccumulator + updateCount fl * v.m_unEnvelopePhaseIncrement < 32768 →
      (v.getSamples pgm fl).2.m_unEnvelopePhaseAccumulator =
        v.m_unEnvelopePhaseAccumulator + updateCount fl * v.m_unEnvelopePhaseIncrement ∧
      (v.getSamples pgm fl).2.m_sAmplitude =
        (if updateCount fl = 0 then v.m_sAmplitude
          else pgm_read_byte pgm (v.m_unEnvelopeTableStart +
            ((v.m_unEnvelopePhaseAccumulator +
              updateCount fl * v.m_unEnvelopePhaseIncrement) >>> 7))) := by
  induction fl with
  | nil =>
    intro v _
    simp [CVoice.getSamples, updateCount]
  | cons f rest ih =>
    intro v hlt
    obtain ⟨e1, e2⟩ := getSample_envelope_step pgm v f.1 f.2
    obtain ⟨-, -, f3, f4, -, -⟩ := getSample_frame pgm v f.1 f.2
    by_cases hf : f.1 = 0
    · have hcount : updateCount (f :: rest) = updateCount rest := by
        simp [updateCount, hf]
      rw [hcount] at hlt ⊢
      rw [hf] at e1 e2 f3 f4
      simp only [ne_eq, not_true_eq_false, false_and, if_false] at e1 e2
      have hlt1 : (v.getSample pgm 0 f.2).2.m_unEnvelopePhaseAccumulator +
          updateCount rest * (v.getSample pgm 0 f.2).2.m_unEnvelopePhaseIncrement < 32768 := by
        rw [e1, f4]; exact hlt
      obtain ⟨i1, i2⟩ := ih (v.getSample pgm 0 f.2).2 hlt1
      simp only [CVoice.getSamples]
      rw [hf]
      rw [e1, f4] at i1
      rw [e1, e2, f3, f4] at i2
      exact ⟨i1, i2⟩
    · have hcount : updateCount (f :: rest) = updateCount rest + 1 := by
        simp [updateCount, hf]
      rw [hcount] at hlt ⊢
      have hmul : (updateCount rest + 1) * v.m_unEnvelopePhaseIncrement =
          updateCount rest * v.m_unEnvelopePhaseIncrement + v.m_unEnvelopePhaseIncrement := by
        ring
      rw [hmul] at hlt ⊢
      have hclear : v.m_unEnvelopePhaseAccumulator &&& 0x8000 = 0 :=
        (land_sentinel_of_lt _ (by omega)).mpr (by omega)
      have hmod : (v.m_unEnvelopePhaseAccumulator + v.m_unEnvelopePhaseIncrement) % 65536 =
          v.m_unEnvelopePhaseAccumulator + v.m_unEnvelopePhaseIncrement :=
        Nat.mod_eq_of_lt (by omega)
      have hclear2 : (v.m_unEnvelopePhaseAccumulator + v.m_unEnvelopePhaseIncrement) &&& 0x8000
          = 0 := (land_sentinel_of_lt _ (by omega)).mpr (by omega)
      rw [if_pos ⟨hf, hclear⟩, hmod] at e1
      rw [if_pos hf, if_pos hclear, hmod, if_neg (by simpa using hclear2)] at e2
      have hlt1 : (v.getSample pgm f.1 f.2).2.m_unEnvelopePhaseAccumulator +
          updateCount rest * (v.getSample pgm f.1 f.2).2.m_unEnvelopePhaseIncrement < 32768 := by
        rw [e1, f4]; omega
      obtain ⟨i1, i2⟩ := ih (v.getSample pgm f.1 f.2).2 hlt1
      simp only [CVoice.getSamples]
      rw [e1, f4] at i1
      rw [e1, e2, f3, f4] at i2
      have hsum : v.m_unEnvelopePhaseAccumulator + v.m_unEnvelopePhaseIncrement +
          updateCount rest * v.m_unEnvelopePhaseIncrement =
          v.m_unEnvelopePhaseAccumulator +
            (updateCount rest * v.m_unEnvelopePhaseIncrement + v.m_unEnvelopePhaseIncrement) := by
        omega
      rw [hsum] at i1 i2
      refine ⟨i1, ?_⟩
      rw [i2, if_neg (Nat.succ_ne_zero _)]
      by_cases hz : updateCount rest = 0
      · rw [if_pos hz, hz, Nat.zero_mul, Nat.zero_add]
      · rw [if_neg hz]

theorem getSamples_crossing_sentinel (pgm : Nat → Nat) (fl : List (Nat × Nat)) :
    ∀ v : CVoice, v.m_unEnvelopePhaseIncrement ≤ 32768 →
      ∀ c : Nat, updateCount fl = c + 1 →
      v.m_unEnvelopePhaseAccumulator + c * v.m_unEnvelopePhaseIncrement < 32768 →
      32768 ≤ v.m_unEnvelopePhaseAccumulator + (c + 1) * v.m_unEnvelopePhaseIncrement →
      (v.getSamples pgm fl).2.m_unEnvelopePhaseAccumulator =
        v.m_unEnvelopePhaseAccumulator + (c + 1) * v.m_unEnvelopePhaseIncrement ∧
      (v.getSamples pgm fl).2.m_unEnvelopePhaseAccumulator &&& 0x8000 ≠ 0 ∧
      (v.getSamples pgm fl).2.m_sAmplitude = 0 := by
  induction fl with
  | nil =>
    intro v _ c hc
    simp [updateCount] at hc
  | cons f rest ih =>
    intro v hinc c hc hlt hge
    obtain ⟨e1, e2⟩ := getSample_envelope_step pgm v f.1 f.2
    obtain ⟨-, -, f3, f4, -, -⟩ := getSample_frame pgm v f.1 f.2
    have hmul : (c + 1) * v.m_unEnvelopePhaseIncrement =
        c * v.m_unEnvelopePhaseIncrement + v.m_unEnvelopePhaseIncrement := by ring
    by_cases hf : f.1 = 0
    · have hcount : updateCount rest = c + 1 := by
        simpa [updateCount, hf] using hc
      rw [hf] at e1 e2 f3 f4
      simp only [ne_eq, not_true_eq_false, false_and, if_false] at e1 e2
      obtain ⟨i1, i2, i3⟩ := ih (v.getSample pgm 0 f.2).2 (by rw [f4]; exact hinc) c hcount
        (by rw [e1, f4]; exact hlt) (by rw [e1, f4]; exact hge)
      simp only [CVoice.getSamples]
      rw [hf]
      rw [e1, f4] at i1
      exact ⟨i1, i2, i3⟩
    · have hcount : updateCount rest = c := by
        have : updateCount rest + 1 = c + 1 := by simpa [updateCount, hf] using hc
        omega
      have hclear : v.m_unEnvelopePhaseAccumulator &&& 0x8000 = 0 :=
        (land_sentinel_of_lt _ (by omega)).mpr (by omega)
      have hmod : (v.m_unEnvelopePhaseAccumulator + v.m_unEnvelopePhaseIncrement) % 65536 =
          v.m_unEnvelopePhaseAccumulator + v.m_unEnvelopePhaseIncrement :=
        Nat.mod_eq_of_lt (by omega)
      rw [if_pos ⟨hf, hclear⟩, hmod] at e1
      rw [if_pos hf, if_pos hclear, hmod] at e2
      simp only [CVoice.getSamples]
      rcases Nat.eq_zero_or_pos c with hc0 | hcpos
      · subst hc0
        rw [Nat.zero_mul, Nat.add_zero] at hlt
        rw [Nat.zero_add, Nat.one_mul] at hge ⊢
        have hset : (v.m_unEnvelopePhaseAccumulator + v.m_unEnvelopePhaseIncrement) &&& 0x8000
            ≠ 0 := by
          intro hz
          have := (land_sentinel_of_lt _ (by omega)).mp hz
          omega
        rw [if_pos hset] at e2
        obtain ⟨n1, n2⟩ := getSamples_no_update pgm rest (v.getSample pgm f.1 f.2).2 hcount
        rw [n1, n2, e1, e2]
        exact ⟨rfl, hset, rfl⟩
      · obtain ⟨d, hd⟩ : ∃ d, c = d + 1 := ⟨c - 1, by omega⟩
        subst hd
        have hmul2 : (d + 1) * v.m_unEnvelopePhaseIncrement =
            d * v.m_unEnvelopePhaseIncrement + v.m_unEnvelopePhaseIncrement := by ring
        have hmul3 : (d + 1 + 1) * v.m_unEnvelopePhaseIncrement =
            d * v.m_unEnvelopePhaseIncrement + v.m_unEnvelopePhaseIncrement +
              v.m_unEnvelopePhaseIncrement := by ring
        rw [hmul2] at hlt
        rw [hmul3] at hge
        obtain ⟨i1, i2, i3⟩ := ih (v.getSample pgm f.1 f.2).2 (by rw [f4]; exact hinc) d hcount
          (by rw [e1, f4]; omega) (by rw [e1, f4, hmul2]; omega)
        rw [e1, f4, hmul2] at i1
        refine ⟨?_, i2, i3⟩
        rw [i1, hmul3]
        omega

/-- C25: for an envelope increment `inc` with `1 ≤ inc ≤ 32768`, starting
from a just-triggered voice (accumulator 0), after any sequence of `getSample`
calls of which `k` are made with `bUpdateEnvelope` set: if `k` is below
`⌈32768 / inc⌉` the accumulator is `k * inc` with bit 15 clear, and (for
`k ≥ 1`) the cached amplitude is the envelope-table byte at `(k * inc) >> 7`;
if `k` equals `⌈32768 / inc⌉` the accumulator is `k * inc` with bit 15 set and
the amplitude is 0.  So the sentinel becomes set on exactly the
`⌈32768 / inc⌉`-th such call. -/
theorem C25_sentinel_after_ceil_updates (pgm : Nat → Nat) (v : CVoice) (fl : List (Nat × Nat))
    (h1 : 1 ≤ v.m_unEnvelopePhaseIncrement) (h2 : v.m_unEnvelopePhaseIncrement ≤ 32768) :
    (32768 + v.m_unEnvelopePhaseIncrement - 1) / v.m_unEnvelopePhaseIncrement =
      ⌈(32768 : ℚ) / (v.m_unEnvelopePhaseIncrement : ℚ)⌉₊ ∧
    (updateCount fl < (32768 + v.m_unEnvelopePhaseIncrement - 1) / v.m_unEnvelopePhaseIncrement →
      (v.trigger.getSamples pgm fl).2.m_unEnvelopePhaseAccumulator =
        updateCount fl * v.m_unEnvelopePhaseIncrement ∧
      (v.trigger.getSamples pgm fl).2.m_unEnvelopePhaseAccumulator &&& 0x8000 = 0 ∧
      (1 ≤ updateCount fl → (v.trigger.getSamples pgm fl).2.m_sAmplitude =
        pgm_read_byte pgm (v.m_unEnvelopeTableStart +
          ((updateCount fl * v.m_unEnvelopePhaseIncrement) >>> 7)))) ∧
    (updateCount fl = (32768 + v.m_unEnvelopePhaseIncrement - 1) / v.m_unEnvelopePhaseIncrement →
      (v.trigger.getSamples pgm fl).2.m_unEnvelopePhaseAccumulator =
        updateCount fl * v.m_unEnvelopePhaseIncrement ∧
      (v.trigger.getSamples pgm fl).2.m_unEnvelopePhaseAccumulator &&& 0x8000 ≠ 0 ∧
      (v.trigger.getSamples pgm fl).2.m_sAmplitude = 0) := by
  have hK := updates_lt_ceil_iff v.m_unEnvelopePhaseIncrement
  have hKpos : 1 ≤ (32768 + v.m_unEnvelopePhaseIncrement - 1) / v.m_unEnvelopePhaseIncrement := by
    rw [Nat.le_div_iff_mul_le (by omega)]
    omega
  have htinc : v.trigger.m_unEnvelopePhaseIncrement = v.m_unEnvelopePhaseIncrement := rfl
  have htacc : v.trigger.m_unEnvelopePhaseAccumulator = 0 := rfl
  have htenv : v.trigger.m_unEnvelopeTableStart = v.m_unEnvelopeTableStart := rfl
  refine ⟨?_, ?_, ?_⟩
  · symm
    rw [Nat.ceil_eq_iff (by omega)]
    have hposq : (0 : ℚ) < (v.m_unEnvelopePhaseIncrement : ℚ) := by exact_mod_cast h1
    have hlow := (hK ((32768 + v.m_unEnvelopePhaseIncrement - 1) /
      v.m_unEnvelopePhaseIncrement - 1) h1).mp (by omega)
    have hhigh : ¬ ((32768 + v.m_unEnvelopePhaseIncrement - 1) / v.m_unEnvelopePhaseIncrement *
        v.m_unEnvelopePhaseIncrement < 32768) := by
      intro hc
      have := (hK _ h1).mpr hc
      omega
    constructor
    · rw [lt_div_iff₀ hposq]
      exact_mod_cast hlow
    · rw [div_le_iff₀ hposq]
      have : 32768 ≤ (32768 + v.m_unEnvelopePhaseIncrement - 1) / v.m_unEnvelopePhaseIncrement *
          v.m_unEnvelopePhaseIncrement := by omega
      exact_mod_cast this
  · intro hlt
    have hb := (hK (updateCount fl) h1).mp hlt
    obtain ⟨a1, a2⟩ := getSamples_below_sentinel pgm fl v.trigger
      (by rw [htacc, htinc]; omega)
    rw [htacc, htinc, Nat.zero_add] at a1
    rw [htacc, htinc, htenv, Nat.zero_add] at a2
    refine ⟨a1, ?_, ?_⟩
    · rw [a1]
      exact (land_sentinel_of_lt _ (by omega)).mpr hb
    · intro hk
      rw [a2, if_neg (by omega)]
  · intro heq
    obtain ⟨c, hc⟩ : ∃ c, updateCount fl = c + 1 := ⟨updateCount fl - 1, by omega⟩
    have hlow : c * v.m_unEnvelopePhaseIncrement < 32768 := (hK c h1).mp (by omega)
    have hhigh : 32768 ≤ (c + 1) * v.m_unEnvelopePhaseIncrement := by
      by_contra hcon
      have := (hK (c + 1) h1).mpr (by omega)
      omega
    obtain ⟨b1, b2, b3⟩ := getSamples_crossing_sentinel pgm fl v.trigger
      (by rw [htinc]; exact h2) c hc
      (by rw [htacc, htinc]; omega) (by rw [htacc, htinc]; omega)
    rw [htacc, htinc, Nat.zero_add] at b1
    rw [hc]
    exact ⟨b1, b2, b3⟩

/-- C25 at a concrete input: the constructed voice (increment 10), three
calls, two of them with the envelope update set. -/
theorem C25_sentinel_after_ceil_updates_witness :
    1 ≤ CVoice.ctor.m_unEnvelopePhaseIncrement ∧ CVoice.ctor.m_unEnvelopePhaseIncrement ≤ 32768 ∧
      (CVoice.ctor.trigger.getSamples (fun _ => 200) [(1, 0), (0, 0), (1, 1)]).2.m_unEnvelopePhaseAccumulator
        = updateCount [(1, 0), (0, 0), (1, 1)] * CVoice.ctor.m_unEnvelopePhaseIncrement :=
  ⟨by decide, by decide,
    ((C25_sentinel_after_ceil_updates (fun _ => 200) CVoice.ctor [(1, 0), (0, 0), (1, 1)]
      (by decide) (by decide)).2.1 (by decide)).1⟩

/-! ## The beat clock before `setBPM` -/

theorem OCR1A_ISR_beat_step (pgm : Nat → Nat) (t : CIllutronB) :
    (t.OCR1A_ISR pgm).m_unBPMCounterStart = t.m_unBPMCounterStart ∧
    (t.OCR1A_ISR pgm).m_unBPMCounter =
      (if 0 = (t.m_unBPMCounter + 65535) % 65536 then t.m_unBPMCounterStart
        else (t.m_unBPMCounter + 65535) % 65536) ∧
    (t.OCR1A_ISR pgm).m_sBeatComplete =
      (if 0 = (t.m_unBPMCounter + 65535) % 65536 then 1 else t.m_sBeatComplete) := by
  unfold CIllutronB.OCR1A_ISR
  simp only []
  split_ifs <;> exact ⟨rfl, rfl, rfl⟩

theorem ticks_from_zero_start (pgm : Nat → Nat) (s : CIllutronB)
    (hstart : s.m_unBPMCounterStart = 0) (hcnt : s.m_unBPMCounter = 0)
    (hlatch : s.m_sBeatComplete = 0) (n : Nat) :
    (CIllutronB.ticks pgm n s).m_unBPMCounterStart = 0 ∧
    (CIllutronB.ticks pgm n s).m_unBPMCounter = (65536 - n % 65536) % 65536 ∧
    ((CIllutronB.ticks pgm n s).m_sBeatComplete ≠ 0 ↔ 65536 ≤ n) := by
  induction n with
  | zero =>
    refine ⟨hstart, by rw [CIllutronB.ticks, hcnt], ?_⟩
    rw [CIllutronB.ticks, hlatch]
    constructor
    · intro h; exact absurd rfl h
    · intro h; omega
  | succ k ih =>
    obtain ⟨ihs, ihc, ihl⟩ := ih
    obtain ⟨b1, b2, b3⟩ := OCR1A_ISR_beat_step pgm (CIllutronB.ticks pgm k s)
    simp only [CIllutronB.ticks]
    rw [b1, b2, b3, ihs, ihc]
    refine ⟨rfl, ?_, ?_⟩
    · split_ifs <;> omega
    · split_ifs with hz
      · constructor
        · intro _; omega
        · intro _; exact one_ne_zero
      · rw [ihl]
        omega

theorem tickPolls_from_zero_start (pgm : Nat → Nat) (s : CIllutronB)
    (hstart : s.m_unBPMCounterStart = 0) (hcnt : s.m_unBPMCounter = 0)
    (hlatch : s.m_sBeatComplete = 0) (n : Nat) :
    (CIllutronB.tickPolls pgm n s).2.m_unBPMCounterStart = 0 ∧
    (CIllutronB.tickPolls pgm n s).2.m_unBPMCounter = (65536 - n % 65536) % 65536 ∧
    (CIllutronB.tickPolls pgm n s).2.m_sBeatComplete = 0 ∧
    (1 ≤ n → ((CIllutronB.tickPolls pgm n s).1 ≠ 0 ↔ n % 65536 = 0)) := by
  induction n with
  | zero =>
    refine ⟨hstart, by rw [CIllutronB.tickPolls, hcnt], hlatch, ?_⟩
    intro h; omega
  | succ k ih =>
    obtain ⟨ihs, ihc, ihl, -⟩ := ih
    obtain ⟨b1, b2, b3⟩ := OCR1A_ISR_beat_step pgm (CIllutronB.tickPolls pgm k s).2
    obtain ⟨p1, p2, p3, p4, -⟩ :=
      beatComplete_spec ((CIllutronB.tickPolls pgm k s).2.OCR1A_ISR pgm)
    simp only [CIllutronB.tickPolls, CIllutronB.tickPoll]
    rw [p1, p2, p3, p4, b1, b2, b3, ihs, ihc, ihl]
    refine ⟨rfl, ?_, rfl, ?_⟩
    · split_ifs <;> omega
    · intro _
      split_ifs with hz
      · constructor
        · intro _; omega
        · intro _; exact one_ne_zero
      · constructor
        · intro h; exact absurd rfl h
        · intro h; omega

/-- C26: when the countdown start and the countdown are 0 and the latch is
clear (the initial state, before any `setBPM` call), the first decrement wraps
the 16-bit countdown to 65535, the countdown is `(65536 - n mod 65536) mod
65536` after `n` ticks, and the n-th tick sets the beat latch exactly when `n`
is a positive multiple of 65536: a caller polling `beatComplete()` after every
tick gets a non-zero value at tick `n ≥ 1` exactly when 65536 divides `n`. -/
theorem C26_beat_with_zero_start (pgm : Nat → Nat) (s : CIllutronB) (n : Nat)
    (hstart : s.m_unBPMCounterStart = 0) (hcnt : s.m_unBPMCounter = 0)
    (hlatch : s.m_sBeatComplete = 0) (hn : 1 ≤ n) :
    (CIllutronB.ticks pgm 1 s).m_unBPMCounter = 65535 ∧
    (CIllutronB.ticks pgm n s).m_unBPMCounter = (65536 - n % 65536) % 65536 ∧
    ((CIllutronB.tickPolls pgm n s).1 ≠ 0 ↔ 65536 ∣ n) ∧
    ((CIllutronB.ticks pgm (n - 1) s).m_unBPMCounter = 1 ↔ 65536 ∣ n) ∧
    ((CIllutronB.ticks pgm n s).m_sBeatComplete ≠ 0 ↔ 65536 ≤ n) ∧
    (CIllutronB.initial.m_unBPMCounterStart = 0 ∧ CIllutronB.initial.m_unBPMCounter = 0 ∧
      CIllutronB.initial.m_sBeatComplete = 0) := by
  have ht := ticks_from_zero_start pgm s hstart hcnt hlatch
  have hp := (tickPolls_from_zero_start pgm s hstart hcnt hlatch n).2.2.2 hn
  have hdvd : 65536 ∣ n ↔ n % 65536 = 0 := Nat.dvd_iff_mod_eq_zero ..
  refine ⟨?_, (ht n).2.1, ?_, ?_, (ht n).2.2, rfl, rfl, rfl⟩
  · rw [(ht 1).2.1]
  · rw [hp, hdvd]
  · rw [(ht (n - 1)).2.1, hdvd]
    omega

/-- C26 at a concrete input: the initial state, tick 131072. -/
theorem C26_beat_with_zero_start_witness :
    CIllutronB.initial.m_unBPMCounterStart = 0 ∧ 1 ≤ 131072 ∧
      ((CIllutronB.tickPolls (fun _ => 0) 131072 CIllutronB.initial).1 ≠ 0 ↔ 65536 ∣ 131072) :=
  ⟨rfl, by decide,
    (C26_beat_with_zero_start (fun _ => 0) CIllutronB.initial 131072 rfl rfl rfl
      (by decide)).2.2.1⟩

end IllutronB
